import Mathlib

/-!
Verification of the opencc_pyo3 CJK paragraph-reflow engine and OpenCC
configuration handling.

Strings are modelled as `List Char`; every Rust helper from
`src/reflow_helper.rs` (the reflow engine the specification describes)
and the configuration logic of `src/lib.rs` is translated into an
executable Lean definition of the same name.  Rust's `PyResult` wrapper
is dropped: the reflow engine only ever returns `Ok`, so the embedding
is a total function.
-/

namespace OpenccPyo3

/-- Unicode White_Space property, matching Rust's char::is_whitespace. -/
def isWhitespace (c : Char) : Bool :=
  let n := c.toNat
  n = 0x9 || n = 0xA || n = 0xB || n = 0xC || n = 0xD || n = 0x20 ||
  n = 0x85 || n = 0xA0 || n = 0x1680 || (0x2000 ≤ n && n ≤ 0x200A) ||
  n = 0x2028 || n = 0x2029 || n = 0x202F || n = 0x205F || n = 0x3000

/-- Rust str::trim_start (drop leading Unicode whitespace). -/
def trimStart (l : List Char) : List Char := l.dropWhile isWhitespace

/-- Rust str::trim_end (drop trailing Unicode whitespace). -/
def trimEnd (l : List Char) : List Char := (l.reverse.dropWhile isWhitespace).reverse

/-- Rust str::trim (drop whitespace on both sides). -/
def trim (l : List Char) : List Char := trimStart (trimEnd l)

/-- Drop leading halfwidth and fullwidth spaces, the driver's
`trim_start_matches(|ch| ch == ' ' || ch == '\u{3000}')` probe. -/
def trimIndentChars (l : List Char) : List Char :=
  l.dropWhile (fun c => c = ' ' || c = '　')

/-- Last non-whitespace character, `s.chars().rev().find(|c| !c.is_whitespace())`. -/
def lastNonWs (l : List Char) : Option Char :=
  l.reverse.find? (fun c => !(isWhitespace c))

-- ---------------------------------------------------------------------------
-- Constants of the reflow engine (src/reflow_helper.rs)
-- ---------------------------------------------------------------------------

/-- CJK / mixed punctuation that usually ends a sentence or clause. -/
def CJK_PUNCT_END : List Char :=
  ['。', '！', '？', '；', '：', '…', '—', '”', '」', '’', '』', '）', '】',
   '》', '〗', '〔', '〕', '〉', '⟩', '］', '｝', '》', '＞', '.', '?', '!']

/-- Closing brackets that can trail after a chapter marker. -/
def CHAPTER_TRAIL_BRACKETS : List Char :=
  ['】', '》', '〗', '〕', '〉', '」', '』', '）', '］', '＞', '⟩']

/-- Keywords treated as headings even without a chapter number. -/
def HEADING_KEYWORDS : List (List Char) :=
  ["前言".toList, "序章".toList, "终章".toList, "尾声".toList, "后记".toList,
   "番外".toList, "尾聲".toList, "後記".toList]

/-- Unified chapter markers. -/
def CHAPTER_MARKERS : List Char := ['章', '节', '部', '卷', '節', '回']

/-- Disallowed suffix after a chapter marker. -/
def INVALID_AFTER_MARKER : List Char := ['分', '合']

/-- Sentence-like punctuation that disqualifies a strong title heading. -/
def HEADING_REJECT_PUNCT : List Char := ['，', ',', '。', '！', '？', '；']

/-- CJK numerals used by the 卷一 / 章十 strong-heading rule. -/
def CJK_NUMERALS : List Char :=
  ['一', '二', '三', '四', '五', '六', '七', '八', '九', '十']

/-- Metadata key/value separators. -/
def METADATA_SEPARATORS : List Char := ['：', ':', '・', '　']

/-- Metadata keys such as 書名/作者/出版社/ISBN, etc. -/
def METADATA_KEYS : List (List Char) :=
  ["書名".toList, "书名".toList, "作者".toList, "譯者".toList, "译者".toList,
   "校訂".toList, "校订".toList, "出版社".toList, "出版時間".toList,
   "出版时间".toList, "出版日期".toList, "版權".toList, "版权".toList,
   "版權頁".toList, "版权页".toList, "版權信息".toList, "版权信息".toList,
   "責任編輯".toList, "责任编辑".toList, "編輯".toList, "编辑".toList,
   "責編".toList, "责编".toList, "定價".toList, "定价".toList, "前言".toList,
   "序章".toList, "終章".toList, "终章".toList, "尾聲".toList, "尾声".toList,
   "後記".toList, "后记".toList, "品牌方".toList, "出品方".toList,
   "授權方".toList, "授权方".toList, "電子版權".toList, "数字版权".toList,
   "掃描".toList, "扫描".toList, "OCR".toList, "CIP".toList,
   "在版編目".toList, "在版编目".toList, "分類號".toList, "分类号".toList,
   "主題詞".toList, "主题词".toList, "發行日".toList, "发行日".toList,
   "初版".toList, "ISBN".toList]

/-- Dialog openers (Simplified / Traditional / JP-style). -/
def DIALOG_OPENERS : List Char := ['“', '‘', '「', '『', '﹁', '﹃']

/-- Dialog closers, including compatibility forms. -/
def DIALOG_CLOSERS : List Char := ['”', '’', '」', '』', '﹂', '﹄', '〞', '〟']

def is_dialog_opener (ch : Char) : Bool := DIALOG_OPENERS.contains ch

def is_dialog_closer (ch : Char) : Bool := DIALOG_CLOSERS.contains ch

/-- Bracket punctuations (open, close). -/
def BRACKET_PAIRS : List (Char × Char) :=
  [('（', '）'), ('(', ')'), ('［', '］'), ('[', ']'), ('｛', '｝'),
   ('{', '}'), ('＜', '＞'), ('<', '>'), ('⟨', '⟩'), ('〈', '〉'),
   ('【', '】'), ('《', '》'), ('〔', '〕'), ('〖', '〗')]

def is_bracket_opener (ch : Char) : Bool :=
  BRACKET_PAIRS.any (fun p => p.1 = ch)

def is_bracket_closer (ch : Char) : Bool :=
  BRACKET_PAIRS.any (fun p => p.2 = ch)

def is_matching_bracket (openCh closeCh : Char) : Bool :=
  BRACKET_PAIRS.any (fun p => p.1 = openCh && p.2 = closeCh)

-- ---------------------------------------------------------------------------
-- Character classification (src/reflow_helper.rs)
-- ---------------------------------------------------------------------------

/-- True if every char is ASCII, Rust `s.is_ascii()`. -/
def is_all_ascii (s : List Char) : Bool := s.all (fun c => c.toNat ≤ 0x7F)

/-- CJK Unified Ideographs (plus Extension A and Compatibility block). -/
def is_cjk_bmp (ch : Char) : Bool :=
  let c := ch.toNat
  (0x3400 ≤ c && c ≤ 0x4DBF) || (0x4E00 ≤ c && c ≤ 0x9FFF) ||
  (0xF900 ≤ c && c ≤ 0xFAFF)

/-- Non-empty, no whitespace, every char CJK. -/
def is_all_cjk_no_ws (s : List Char) : Bool :=
  !s.isEmpty && s.all (fun ch => !(isWhitespace ch) && is_cjk_bmp ch)

/-- Non-empty ignoring whitespace and every non-whitespace char non-ASCII. -/
def is_all_cjk_ignoring_ws (s : List Char) : Bool :=
  (s.any (fun ch => !(isWhitespace ch))) &&
  s.all (fun ch => isWhitespace ch || 0x7F < ch.toNat)

def is_ascii_digit (ch : Char) : Bool := '0' ≤ ch && ch ≤ '9'

def is_ascii_alphabetic (ch : Char) : Bool :=
  ('A' ≤ ch && ch ≤ 'Z') || ('a' ≤ ch && ch ≤ 'z')

def is_ascii_alphanumeric (ch : Char) : Bool :=
  is_ascii_digit ch || is_ascii_alphabetic ch

/-- ASCII or fullwidth digit. -/
def is_digit_ascii_or_fullwidth (ch : Char) : Bool :=
  is_ascii_digit ch || ('０' ≤ ch && ch ≤ '９')

/-- Mixed CJK and ASCII alphanumerics with a small neutral set tolerated. -/
def is_mixed_cjk_ascii (s : List Char) : Bool :=
  go s false false
where
  go : List Char → Bool → Bool → Bool
    | [], _, _ => false
    | ch :: rest, hasCjk, hasAscii =>
      if ch = ' ' || ch = '-' || ch = '/' || ch = ':' || ch = '.' then
        go rest hasCjk hasAscii
      else if ch.toNat ≤ 0x7F then
        if is_ascii_alphanumeric ch then
          if hasCjk then true else go rest hasCjk true
        else false
      else if 0xFF10 ≤ ch.toNat && ch.toNat ≤ 0xFF19 then
        if hasCjk then true else go rest hasCjk true
      else if is_cjk_bmp ch then
        if hasAscii then true else go rest true hasAscii
      else false

/-- CJK-ideograph count positive and at least the ASCII-letter count,
with digits and whitespace neutral. -/
def is_mostly_cjk (s : List Char) : Bool :=
  let cjk := (s.filter (fun ch =>
    !(isWhitespace ch) && !(is_digit_ascii_or_fullwidth ch) && is_cjk_bmp ch)).length
  let ascii := (s.filter (fun ch =>
    !(isWhitespace ch) && !(is_digit_ascii_or_fullwidth ch) && !(is_cjk_bmp ch) &&
    ch.toNat ≤ 0x7F && is_ascii_alphabetic ch)).length
  0 < cjk && ascii ≤ cjk

/-- Has some opening bracket but no closing bracket anywhere. -/
def has_unclosed_bracket (s : List Char) : Bool :=
  s.any is_bracket_opener && !(s.any is_bracket_closer)

-- ---------------------------------------------------------------------------
-- Line classifiers (src/reflow_helper.rs)
-- ---------------------------------------------------------------------------

/-- All but the last character, Rust `strip_last_char`. -/
def strip_last_char (s : List Char) : List Char := s.dropLast

/-- Strip only halfwidth leading spaces, keeping a fullwidth U+3000 indent. -/
def strip_halfwidth_indent_keep_fullwidth (s : List Char) : List Char :=
  s.dropWhile (fun c => c = ' ')

/-- Metadata key/value line, e.g. 書名：三體 (length, separator position,
known key, non-dialog value). -/
def is_metadata_line (line : List Char) : Bool :=
  let s := trim line
  if s.isEmpty then false
  else if 30 < s.length then false
  else
    match s.findIdx? (fun ch => METADATA_SEPARATORS.contains ch) with
    | none => false
    | some pos =>
      if pos = 0 || 10 < pos then false
      else
        let key := trim (s.take pos)
        if !(METADATA_KEYS.contains key) then false
        else
          match (s.drop (pos + 1)).find? (fun ch => !(isWhitespace ch)) with
          | none => false
          | some firstAfter => !(DIALOG_OPENERS.contains firstAfter)

/-- Visual divider lines (box drawing, ----, ====, ***, ★★★ ...). -/
def is_box_drawing_line (s : List Char) : Bool :=
  if (trim s).isEmpty then false
  else
    let visual := s.filter (fun ch => !(isWhitespace ch))
    visual.all (fun ch =>
      (0x2500 ≤ ch.toNat && ch.toNat ≤ 0x257F) ||
      ch = '-' || ch = '=' || ch = '_' || ch = '~' || ch = '～' ||
      ch = '*' || ch = '＊' || ch = '★' || ch = '☆') &&
    3 ≤ visual.length

/-- The buffer's last non-whitespace char is CJK end punctuation. -/
def buffer_ends_with_cjk_punct (s : List Char) : Bool :=
  match lastNonWs s with
  | some ch => CJK_PUNCT_END.contains ch
  | none => false

/-- Page marker lines such as === [3/250] ===. -/
def is_page_marker (s : List Char) : Bool :=
  "=== ".toList.isPrefixOf s && "===".toList.isSuffixOf s

/-- Inner loop of the 第…章 scan: look for a chapter marker within distance
6 after the 第 at index i.  `some r` aborts the whole classifier with r.
The loop visits at most the seven indices i+1..i+7 before the distance
check breaks it, so 7 units of fuel are never exhausted. -/
def chapter_scan_inner_fuel (chars : List Char) (i : Nat) :
    Nat → Nat → Option Bool
  | 0, _ => none
  | fuel + 1, j =>
    if j < chars.length then
      if 6 < j - i then none
      else
        let ch := (chars.get? j).getD (Char.ofNat 0)
        if CHAPTER_MARKERS.contains ch then
          (match chars.get? (j + 1) with
           | some nxt =>
              if INVALID_AFTER_MARKER.contains nxt then some false
              else if chars.length - (j + 1) ≤ 20 then some true
              else chapter_scan_inner_fuel chars i fuel (j + 1)
           | none =>
              if chars.length - (j + 1) ≤ 20 then some true
              else chapter_scan_inner_fuel chars i fuel (j + 1))
        else chapter_scan_inner_fuel chars i fuel (j + 1)
    else none

def chapter_scan_inner (chars : List Char) (i j : Nat) : Option Bool :=
  chapter_scan_inner_fuel chars i 7 j

/-- Outer loop of the 第…章 scan over candidate 第 positions
(`chars.length + 1` units of fuel cover every index). -/
def chapter_scan_outer_fuel (chars : List Char) : Nat → Nat → Bool
  | 0, _ => false
  | fuel + 1, i =>
    if i < chars.length then
      if ((chars.get? i).getD (Char.ofNat 0) = '第') && i ≤ 10 then
        match chapter_scan_inner chars i (i + 1) with
        | some r => r
        | none => chapter_scan_outer_fuel chars fuel (i + 1)
      else chapter_scan_outer_fuel chars fuel (i + 1)
    else false

def chapter_scan_outer (chars : List Char) (i : Nat) : Bool :=
  chapter_scan_outer_fuel chars (chars.length + 1) i

/-- Strong title headings: keywords, 番外, 卷一/章十 numeral openers and the
第…章/节/部/卷/節/回 pattern; sentence punctuation disqualifies the line. -/
def is_title_heading_line (line : List Char) : Bool :=
  let s := trim line
  if s.isEmpty then false
  else if 50 < s.length then false
  else if s.any (fun c => HEADING_REJECT_PUNCT.contains c) then false
  else if HEADING_KEYWORDS.any (fun kw => kw.isPrefixOf s) then true
  else if "番外".toList.isPrefixOf s then (s.drop 2).length ≤ 15
  else if (match s with
           | first :: second :: _ =>
              (first = '卷' || first = '章') && CJK_NUMERALS.contains second &&
              s.length ≤ 17
           | _ => false) then true
  else chapter_scan_outer s 0

/-- Strip the trailing run of chapter trail brackets, one at a time
(each step drops one character, so `l.length + 1` units of fuel are never
exhausted). -/
def strip_chapter_trail_fuel : Nat → List Char → List Char
  | 0, l => l
  | fuel + 1, l =>
    match l.getLast? with
    | some last =>
        if CHAPTER_TRAIL_BRACKETS.contains last then
          strip_chapter_trail_fuel fuel l.dropLast
        else l
    | none => l

def strip_chapter_trail (l : List Char) : List Char :=
  strip_chapter_trail_fuel (l.length + 1) l

/-- Chapter-like ending line: short line whose last char, after stripping
trailing closers, is a chapter marker. -/
def is_chapter_ending_line (line : List Char) : Bool :=
  let s := trim line
  if s.isEmpty || 15 < s.length then false
  else
    match (strip_chapter_trail s).getLast? with
    | some last => CHAPTER_MARKERS.contains last
    | none => false

/-- Line begins with a dialog opener, ignoring indentation. -/
def is_dialog_start (s : List Char) : Bool :=
  match (trimIndentChars s).head? with
  | some ch => is_dialog_opener ch
  | none => false

/-- Short heading-like heuristic (provisional; the driver also consults the
buffer before treating the line as standalone). -/
def is_heading_like (line : List Char) : Bool :=
  let s := trim line
  if s.isEmpty then false
  else if "=== ".toList.isPrefixOf s && "===".toList.isSuffixOf s then false
  else if has_unclosed_bracket s then false
  else if (match s.head?, s.getLast? with
           | some first, some last =>
              is_matching_bracket first last &&
              (let inner := if 2 ≤ s.length then (s.drop 1).dropLast else []
               !(trim inner).isEmpty && is_mostly_cjk inner)
           | _, _ => false) then true
  else
    let len := s.length
    let maxLen := if is_all_ascii s || is_mixed_cjk_ascii s then 16 else 8
    if (match s.getLast? with
        | some last => (last = '：' || last = ':') && len < maxLen &&
                       is_all_cjk_no_ws (strip_last_char s)
        | none => false) then true
    else if (match s.getLast? with
             | some last => CJK_PUNCT_END.contains last
             | none => false) then false
    else if s.contains '，' || s.contains ',' || s.contains '、' then false
    else if len ≤ maxLen then
      if s.any (fun ch => CJK_PUNCT_END.contains ch) then false
      else
        let hasNonAscii := s.any (fun ch => 0x7F < ch.toNat)
        let allAscii := s.all (fun ch => ch.toNat ≤ 0x7F)
        let hasLetter := s.any is_ascii_alphabetic
        let allAsciiDigits := s.all is_ascii_digit
        if allAsciiDigits then true
        else if hasNonAscii then true
        else allAscii && hasLetter
    else false

-- ---------------------------------------------------------------------------
-- Sentence / bracket boundary detection (src/reflow_helper.rs)
-- ---------------------------------------------------------------------------

/-- Strong sentence enders 。！？ and ASCII ! / ?. -/
def is_strong_sentence_end (ch : Char) : Bool :=
  ch = '。' || ch = '！' || ch = '？' || ch = '!' || ch = '?'

def is_quote_closer (ch : Char) : Bool := is_dialog_closer ch

/-- `s.chars().nth(idx).unwrap_or('\0')`. -/
def nth_char (s : List Char) (idx : Nat) : Char :=
  (s.get? idx).getD (Char.ofNat 0)

/-- Index (in chars) of the last non-whitespace character. -/
def find_last_non_whitespace_char_index (s : List Char) : Option Nat :=
  go s.reverse s.length
where
  go : List Char → Nat → Option Nat
    | [], _ => none
    | ch :: rest, pos =>
      if !(isWhitespace ch) then some (pos - 1) else go rest (pos - 1)

/-- Previous non-whitespace index before `endExclusive`.  Faithful to the
Rust original, which walks the characters from the end of the string while
counting down from `endExclusive` (so the two run out of step whenever the
string has trailing whitespace). -/
def find_prev_non_whitespace_char_index (s : List Char) (endExclusive : Nat) :
    Option Nat :=
  go s.reverse endExclusive
where
  go : List Char → Nat → Option Nat
    | [], _ => none
    | ch :: rest, pos =>
      if pos = 0 then none
      else if !(isWhitespace ch) then some (pos - 1) else go rest (pos - 1)

/-- Only whitespace after `index`. -/
def is_at_line_end_ignoring_whitespace (s : List Char) (index : Nat) : Bool :=
  (s.drop (index + 1)).all isWhitespace

/-- Only whitespace and quote/bracket closers after `index`. -/
def is_at_end_allowing_closers (s : List Char) (index : Nat) : Bool :=
  (s.drop (index + 1)).all (fun ch =>
    isWhitespace ch || is_quote_closer ch || is_bracket_closer ch)

/-- OCR artifact: ASCII punct at true line end, preceded by CJK in a
mostly-CJK line. -/
def is_ocr_cjk_ascii_punct_at_line_end (s : List Char) (punctIndex : Nat) : Bool :=
  if punctIndex = 0 then false
  else if !(is_at_line_end_ignoring_whitespace s punctIndex) then false
  else is_cjk_bmp (nth_char s (punctIndex - 1)) && is_mostly_cjk s

/-- OCR artifact: ASCII punct followed only by closers/whitespace. -/
def is_ocr_cjk_ascii_punct_before_closers (s : List Char) (punctIndex : Nat) : Bool :=
  if punctIndex = 0 then false
  else if !(is_at_end_allowing_closers s punctIndex) then false
  else is_cjk_bmp (nth_char s (punctIndex - 1)) && is_mostly_cjk s

/-- Trailing ellipsis (… or 2-3 ASCII dots). -/
def ends_with_ellipsis (s : List Char) : Bool :=
  let t := trimEnd s
  t.getLast? = some '…' || "……".toList.isSuffixOf t ||
  "...".toList.isSuffixOf t || "..".toList.isSuffixOf t

/-- Level-2 normalized sentence boundary detection including OCR artifacts. -/
def ends_with_sentence_boundary (s : List Char) : Bool :=
  if (trim s).isEmpty then false
  else
    match find_last_non_whitespace_char_index s with
    | none => false
    | some lastIdx =>
      let last := nth_char s lastIdx
      if is_strong_sentence_end last then true
      else if (last = '.' || last = ':') &&
              is_ocr_cjk_ascii_punct_at_line_end s lastIdx then true
      else if is_quote_closer last &&
              (match find_prev_non_whitespace_char_index s lastIdx with
               | some prevIdx =>
                  let prev := nth_char s prevIdx
                  is_strong_sentence_end prev ||
                  (prev = '.' && is_ocr_cjk_ascii_punct_before_closers s prevIdx)
               | none => false) then true
      else if is_bracket_closer last && 0 < lastIdx && is_mostly_cjk s then true
      else ends_with_ellipsis s

/-- Depth balance of one bracket type, failing on a closer before an opener. -/
def is_bracket_type_balanced (s : List Char) (openCh closeCh : Char) : Bool :=
  go s 0
where
  go : List Char → Int → Bool
    | [], depth => depth = 0
    | ch :: rest, depth =>
      if ch = openCh then go rest (depth + 1)
      else if ch = closeCh then
        if depth - 1 < 0 then false else go rest (depth - 1)
      else go rest depth

/-- Balanced CJK bracket boundary such as （完）, 【番外】, 《後記》. -/
def ends_with_cjk_bracket_boundary (s : List Char) : Bool :=
  let t := trim s
  match t.head?, t.getLast? with
  | some openCh, some closeCh =>
      is_matching_bracket openCh closeCh && is_mostly_cjk t &&
      is_bracket_type_balanced t openCh closeCh
  | _, _ => false

-- ---------------------------------------------------------------------------
-- Repeated-content collapsing (src/reflow_helper.rs)
-- ---------------------------------------------------------------------------

/-- Worker for split_whitespace: `cur` holds the current token reversed. -/
def split_whitespace_go (cur : List Char) : List Char → List (List Char)
  | [] => if cur.isEmpty then [] else [cur.reverse]
  | c :: rest =>
    if isWhitespace c then
      if cur.isEmpty then split_whitespace_go [] rest
      else cur.reverse :: split_whitespace_go [] rest
    else split_whitespace_go (c :: cur) rest

/-- Rust str::split_whitespace: whitespace-delimited tokens, no empties. -/
def split_whitespace (l : List Char) : List (List Char) :=
  split_whitespace_go [] l

/-- Token-sequence equality `parts[a..a+plen] = parts[b..b+plen]`. -/
def phrase_eq_at (parts : List (List Char)) (a b plen : Nat) : Bool :=
  (List.range plen).all (fun k => decide (parts.get? (a + k) = parts.get? (b + k)))

/-- Greedy count of consecutive repeats of `parts[start..start+plen]`.
The fuel argument only bounds the loop: with phrase length at least 1 the
Rust loop runs at most `parts.length` times, so callers pass
`parts.length + 1` and the fuel is never exhausted. -/
def count_repeats_fuel (parts : List (List Char)) (start plen : Nat) :
    Nat → Nat → Nat
  | 0, count => count
  | fuel + 1, count =>
    if parts.length < start + count * plen + plen then count
    else if phrase_eq_at parts start (start + count * plen) plen then
      count_repeats_fuel parts start plen fuel (count + 1)
    else count

def count_repeats (parts : List (List Char)) (start plen count : Nat) : Nat :=
  count_repeats_fuel parts start plen (parts.length + 1) count

/-- Inner loop over phrase lengths 1..=8 for a fixed start (9 units of
fuel cover the whole range). -/
def try_phrase_lens_fuel (parts : List (List Char)) (start : Nat) :
    Nat → Nat → Option (Nat × Nat)
  | 0, _ => none
  | fuel + 1, plen =>
    if 8 < plen then none
    else if parts.length < start + plen then none
    else
      let c := count_repeats parts start plen 1
      if 3 ≤ c then some (plen, c)
      else try_phrase_lens_fuel parts start fuel (plen + 1)

def try_phrase_lens (parts : List (List Char)) (start plen : Nat) :
    Option (Nat × Nat) :=
  try_phrase_lens_fuel parts start 9 plen

/-- Outer loop over start positions for the phrase-level collapse
(`parts.length + 1` units of fuel cover every start position). -/
def find_repeat_start_fuel (parts : List (List Char)) :
    Nat → Nat → Option (Nat × Nat × Nat)
  | 0, _ => none
  | fuel + 1, start =>
    if parts.length ≤ start then none
    else
      match try_phrase_lens parts start 1 with
      | some (plen, c) => some (start, plen, c)
      | none => find_repeat_start_fuel parts fuel (start + 1)

def find_repeat_start (parts : List (List Char)) (start : Nat) :
    Option (Nat × Nat × Nat) :=
  find_repeat_start_fuel parts (parts.length + 1) start

/-- Collapse a token sequence repeated 3+ times to a single occurrence. -/
def collapse_repeated_word_sequences (parts : List (List Char)) :
    List (List Char) :=
  if parts.length < 3 then parts
  else
    match find_repeat_start parts 0 with
    | some (start, plen, c) =>
        parts.take start ++ (parts.drop start).take plen ++
          parts.drop (start + c * plen)
    | none => parts

/-- All length-`u` blocks of `chars` equal the first block. -/
def token_unit_repeats (chars : List Char) (u : Nat) : Bool :=
  (List.range (chars.length / u)).all
    (fun i => decide ((chars.drop (i * u)).take u = chars.take u))

/-- Loop over unit lengths 4..=10 for the token-level collapse (11 units
of fuel cover the whole range). -/
def collapse_token_loop_fuel (chars : List Char) :
    Nat → Nat → List Char
  | 0, _ => chars
  | fuel + 1, u =>
    if 10 < u then chars
    else if chars.length / 3 < u then chars
    else if chars.length % u ≠ 0 then collapse_token_loop_fuel chars fuel (u + 1)
    else if token_unit_repeats chars u then chars.take u
    else collapse_token_loop_fuel chars fuel (u + 1)

def collapse_token_loop (chars : List Char) (u : Nat) : List Char :=
  collapse_token_loop_fuel chars 11 u

/-- Collapse a token that is an exact 3+ repetition of a 4-10 char unit. -/
def collapse_repeated_token (token : List Char) : List Char :=
  if token.length < 4 || 200 < token.length then token
  else collapse_token_loop token 4

/-- Collapse style-layer repeated segments within a line: phrase-level
collapse, then token-level collapse, joined by single spaces. -/
def collapse_repeated_segments (line : List Char) : List Char :=
  let trimmed := trim line
  if trimmed.isEmpty then line
  else
    let parts := split_whitespace trimmed
    if parts.isEmpty then line
    else
      let phraseCollapsed := collapse_repeated_word_sequences parts
      let tokenCollapsed := phraseCollapsed.map collapse_repeated_token
      List.intercalate [' '] tokenCollapsed

-- ---------------------------------------------------------------------------
-- Dialog state (src/reflow_helper.rs)
-- ---------------------------------------------------------------------------

/-- Unmatched dialog-bracket counters for the current paragraph buffer. -/
structure DialogState where
  double_quote : Int
  single_quote : Int
  corner : Int
  corner_bold : Int
  corner_top : Int
  corner_wide : Int
  deriving DecidableEq, Repr

/-- `DialogState::new` / `reset`: all counters zero. -/
def DialogState.init : DialogState := ⟨0, 0, 0, 0, 0, 0⟩

/-- Per-character counter update, clamped at zero on closers. -/
def DialogState.updChar (st : DialogState) (ch : Char) : DialogState :=
  if ch = '“' then { st with double_quote := st.double_quote + 1 }
  else if ch = '”' then { st with double_quote := max (st.double_quote - 1) 0 }
  else if ch = '‘' then { st with single_quote := st.single_quote + 1 }
  else if ch = '’' then { st with single_quote := max (st.single_quote - 1) 0 }
  else if ch = '「' then { st with corner := st.corner + 1 }
  else if ch = '」' then { st with corner := max (st.corner - 1) 0 }
  else if ch = '『' then { st with corner_bold := st.corner_bold + 1 }
  else if ch = '』' then { st with corner_bold := max (st.corner_bold - 1) 0 }
  else if ch = '﹁' then { st with corner_top := st.corner_top + 1 }
  else if ch = '﹂' then { st with corner_top := max (st.corner_top - 1) 0 }
  else if ch = '﹃' then { st with corner_wide := st.corner_wide + 1 }
  else if ch = '﹄' then { st with corner_wide := max (st.corner_wide - 1) 0 }
  else st

/-- `DialogState::update`: scan a text fragment. -/
def DialogState.update (st : DialogState) (s : List Char) : DialogState :=
  s.foldl DialogState.updChar st

/-- `DialogState::is_unclosed`: any counter strictly positive. -/
def DialogState.is_unclosed (st : DialogState) : Bool :=
  decide (0 < st.double_quote) || decide (0 < st.single_quote) ||
  decide (0 < st.corner) || decide (0 < st.corner_bold) ||
  decide (0 < st.corner_top) || decide (0 < st.corner_wide)

-- ---------------------------------------------------------------------------
-- The reflow driver (src/reflow_helper.rs, reflow_cjk_paragraphs)
-- ---------------------------------------------------------------------------

/-- Driver state: emitted segments, paragraph buffer, nesting counters. -/
structure ReflowState where
  segments : List (List Char)
  buffer : List Char
  ds : DialogState
  deriving DecidableEq, Repr

def ReflowState.init : ReflowState := ⟨[], [], DialogState.init⟩

/-- Flush a non-empty buffer, then emit `line` as its own segment
(the driver's `flush_buffer_and_emit_standalone` closure). -/
def flushAndEmit (st : ReflowState) (line : List Char) : ReflowState :=
  if st.buffer.isEmpty then
    { st with segments := st.segments ++ [line] }
  else
    { segments := st.segments ++ [st.buffer, line], buffer := [],
      ds := DialogState.init }

/-- Flush a non-empty buffer (blank-line handling). -/
def flushBuffer (st : ReflowState) : ReflowState :=
  if st.buffer.isEmpty then st
  else
    { segments := st.segments ++ [st.buffer], buffer := [],
      ds := DialogState.init }

/-- Flush the buffer as a segment and restart it with `line`. -/
def flushStartNew (st : ReflowState) (line : List Char) : ReflowState :=
  { segments := st.segments ++ [st.buffer], buffer := line,
    ds := DialogState.update DialogState.init line }

/-- Append `line` to the buffer (soft join) and update nesting. -/
def softJoin (st : ReflowState) (line : List Char) : ReflowState :=
  { st with buffer := st.buffer ++ line,
            ds := DialogState.update st.ds line }

/-- Append `line`, then flush the merged buffer as one segment (the
strong-line-punct rule; the Rust code resets and then updates the dialog
state with the line even though the buffer is emptied). -/
def appendFlush (st : ReflowState) (line : List Char) : ReflowState :=
  { segments := st.segments ++ [st.buffer ++ line], buffer := [],
    ds := DialogState.update DialogState.init line }

/-- Rules 7 (colon continuation) through 10 of the driver, reached when
the line is neither standalone nor a strong-ended line and the buffer is
non-empty and not flushed by the dialogue-opener branch. -/
def processAfterDialog (st : ReflowState) (lineText : List Char) : ReflowState :=
  -- Colon + dialog continuation.
  if (match lastNonWs st.buffer with
      | some lastChar =>
        (lastChar = '：' || lastChar = ':') &&
          (match (trimIndentChars lineText).head? with
           | some firstCh => DIALOG_OPENERS.contains firstCh
           | none => false)
      | none => false) then softJoin st lineText
  -- 8a) Strong sentence boundary of the buffer.
  else if !st.ds.is_unclosed && ends_with_sentence_boundary st.buffer then
    flushStartNew st lineText
  -- 8b) Balanced CJK bracket boundary.
  else if !st.ds.is_unclosed && ends_with_cjk_bracket_boundary st.buffer then
    flushStartNew st lineText
  -- 8c) Broad punctuation fallback.
  else if !st.ds.is_unclosed && buffer_ends_with_cjk_punct st.buffer then
    flushStartNew st lineText
  -- 9) Chapter-like ending lines.
  else if is_chapter_ending_line st.buffer then flushStartNew st lineText
  -- 10) Default soft join.
  else softJoin st lineText

/-- The driver's tail for ordinary text lines: final strong-line punct
check, first-line-of-paragraph, dialogue-opener flush, then rules 7-10. -/
def processNonHeading (st : ReflowState) (lineText : List Char) : ReflowState :=
  if !st.buffer.isEmpty &&
     ((trimEnd lineText).getLast?.elim false is_strong_sentence_end) then
    appendFlush st lineText
  else if st.buffer.isEmpty then
    { st with buffer := lineText,
              ds := DialogState.update DialogState.init lineText }
  else if is_dialog_start lineText &&
          (match (trimEnd st.buffer).getLast? with
           | some ch => ch ≠ '，' && ch ≠ ',' && ch ≠ '、'
           | none => true) then
    flushStartNew st lineText
  else processAfterDialog st lineText

/-- The driver's handling of a normalized (collapsed) line text: blank
line, page marker, metadata, title heading, short heading, ordinary text. -/
def processCollapsed (add_pdf_page_header : Bool) (st : ReflowState)
    (lineText : List Char) : ReflowState :=
  -- 4) Empty line.
  if (trim (trimIndentChars lineText)).isEmpty then
    if !add_pdf_page_header && !st.buffer.isEmpty &&
       !((lastNonWs st.buffer).elim false is_strong_sentence_end) then st
    else flushBuffer st
  -- 5) Page marker lines.
  else if is_page_marker (trimIndentChars lineText) then flushAndEmit st lineText
  -- 6a) Metadata lines.
  else if is_metadata_line lineText then flushAndEmit st lineText
  -- 6b) Strong title headings.
  else if is_title_heading_line (trimIndentChars lineText) then
    flushAndEmit st lineText
  -- 6c) Short heading-like lines: standalone, continuation, or flush.
  else if is_heading_like lineText then
    if st.buffer.isEmpty then
      { st with segments := st.segments ++ [lineText] }
    else if has_unclosed_bracket st.buffer then processNonHeading st lineText
    else
      match (trimEnd st.buffer).getLast? with
      | none => { st with segments := st.segments ++ [lineText] }
      | some last =>
        if last = '，' || last = ',' || last = '、' then
          processNonHeading st lineText
        else if is_all_cjk_ignoring_ws (trimIndentChars lineText) &&
                !(CJK_PUNCT_END.contains last) then
          processNonHeading st lineText
        else
          { segments := st.segments ++ [st.buffer, lineText], buffer := [],
            ds := DialogState.init }
  else processNonHeading st lineText

/-- The driver's handling of the visually normalized line: divider check,
then per-line collapse and the rest. -/
def processStripped (add_pdf_page_header : Bool) (st : ReflowState)
    (strippedVisual : List Char) : ReflowState :=
  -- 1.2) Visual divider lines always force paragraph breaks.
  if is_box_drawing_line (trimIndentChars strippedVisual) then
    flushAndEmit st strippedVisual
  else
    -- 2) Collapse style-layer repeated segments per line.
    processCollapsed add_pdf_page_header st
      (collapse_repeated_segments strippedVisual)

/-- One iteration of the driver's `for raw_line in lines` loop. -/
def processLine (add_pdf_page_header : Bool) (st : ReflowState)
    (raw : List Char) : ReflowState :=
  processStripped add_pdf_page_header st
    (strip_halfwidth_indent_keep_fullwidth (trimEnd raw))

/-- Normalize \r\n and \r to \n (the two Rust `replace` calls). -/
def normalizeNewlines : List Char → List Char
  | [] => []
  | '\r' :: '\n' :: rest => '\n' :: normalizeNewlines rest
  | '\r' :: rest => '\n' :: normalizeNewlines rest
  | c :: rest => c :: normalizeNewlines rest

/-- Rust `str::split('\n')` (keeps empty pieces, always non-empty result). -/
def splitChar (sep : Char) : List Char → List (List Char)
  | [] => [[]]
  | x :: xs =>
    match splitChar sep xs with
    | [] => [[]]
    | y :: ys => if x = sep then [] :: y :: ys else (x :: y) :: ys

/-- The segment list produced by one reflow run (before joining). -/
def reflowSegments (text : List Char) (add_pdf_page_header : Bool) :
    List (List Char) :=
  let normalized := normalizeNewlines text
  let lines := splitChar '\n' normalized
  let final := lines.foldl (processLine add_pdf_page_header) ReflowState.init
  final.segments ++ (if final.buffer.isEmpty then [] else [final.buffer])

/-- Reflow CJK paragraphs (the Rust function always returns `Ok`, so the
embedding is a total function). -/
def reflow_cjk_paragraphs (text : List Char)
    (add_pdf_page_header compact : Bool) : List Char :=
  if text.all isWhitespace then text
  else
    List.intercalate (if compact then ['\n'] else ['\n', '\n'])
      (reflowSegments text add_pdf_page_header)

-- ---------------------------------------------------------------------------
-- OpenCC configuration handling (src/lib.rs)
-- ---------------------------------------------------------------------------

/-- The 16 supported OpenCC conversion configurations (CONFIG_SET). -/
def CONFIG_SET : List String :=
  ["s2t", "t2s", "s2tw", "tw2s", "s2twp", "tw2sp", "s2hk", "hk2s", "t2tw",
   "tw2t", "t2twp", "tw2tp", "t2hk", "hk2t", "t2jp", "jp2t"]

/-- The `config` and `last_error` fields of the Rust OpenCC pyclass (the
inner conversion engine is an external collaborator and not modelled). -/
structure OpenCCState where
  config : String
  last_error : String
  deriving DecidableEq, Repr

/-- The error text `format!("Invalid config '{}', reverted to 's2t'", c)`. -/
def invalid_config_message (c : String) : String :=
  "Invalid config '" ++ c ++ "', reverted to 's2t'"

/-- `OpenCC::new` (src/lib.rs lines 51-68): validate the optional config. -/
def OpenCC_new (config : Option String) : OpenCCState :=
  match config with
  | some c =>
      if CONFIG_SET.contains c then ⟨c, ""⟩
      else ⟨"s2t", invalid_config_message c⟩
  | none => ⟨"s2t", ""⟩

/-- `OpenCC::apply_config` (src/lib.rs lines 113-121). -/
def apply_config (_st : OpenCCState) (config : String) : OpenCCState :=
  if CONFIG_SET.contains config then ⟨config, ""⟩
  else ⟨"s2t", invalid_config_message config⟩

lemma invalid_config_message_ne_empty (c : String) :
    invalid_config_message c ≠ "" := by
  intro h
  have hlen : (invalid_config_message c).length = 0 := by rw [h]; rfl
  rw [invalid_config_message, String.length_append, String.length_append] at hlen
  have h1 : ("Invalid config '" : String).length = 16 := rfl
  have h2 : ("', reverted to 's2t'" : String).length = 20 := rfl
  rw [h1, h2] at hlen
  omega

-- ---------------------------------------------------------------------------
-- C2: whitespace-only inputs
-- ---------------------------------------------------------------------------

/-- C2: for every input whose characters are all whitespace (the empty
string included), reflow_cjk_paragraphs returns the input unchanged, for
every combination of the two boolean options.  The Rust function wraps the
result in `Ok` and has no error path, so the embedding is total. -/
theorem reflow_whitespace_only_identity (text : List Char)
    (add_pdf_page_header compact : Bool)
    (hws : text.all isWhitespace = true) :
    reflow_cjk_paragraphs text add_pdf_page_header compact = text := by
  rw [reflow_cjk_paragraphs, hws]
  rfl

/-- Witness for C2 at concrete whitespace-only inputs (empty, and a line
of spaces, tabs, fullwidth space and newlines), all four option pairs. -/
theorem reflow_whitespace_only_identity_witness :
    (([] : List Char).all isWhitespace = true ∧
      reflow_cjk_paragraphs [] false false = []) ∧
    (" \t　\n \n".toList.all isWhitespace = true ∧
      reflow_cjk_paragraphs " \t　\n \n".toList true false = " \t　\n \n".toList ∧
      reflow_cjk_paragraphs " \t　\n \n".toList false true = " \t　\n \n".toList ∧
      reflow_cjk_paragraphs " \t　\n \n".toList true true = " \t　\n \n".toList) :=
  ⟨⟨by decide, reflow_whitespace_only_identity [] false false (by decide)⟩,
   by decide,
   reflow_whitespace_only_identity _ true false (by decide),
   reflow_whitespace_only_identity _ false true (by decide),
   reflow_whitespace_only_identity _ true true (by decide)⟩

-- ---------------------------------------------------------------------------
-- C10: OpenCC configuration handling
-- ---------------------------------------------------------------------------

/-- C10: constructing an OpenCC with a config outside the 16 supported codes
yields config "s2t" and a non-empty last_error; a supported code (or none)
yields that code (resp. "s2t") with an empty last_error; apply_config with a
supported code sets it and clears last_error, with an unsupported code sets
"s2t" and a non-empty last_error. -/
theorem opencc_config_handling :
    (CONFIG_SET.length = 16 ∧ CONFIG_SET.Nodup) ∧
    OpenCC_new none = ⟨"s2t", ""⟩ ∧
    (∀ c : String, CONFIG_SET.contains c = true → OpenCC_new (some c) = ⟨c, ""⟩) ∧
    (∀ c : String, CONFIG_SET.contains c = false →
      (OpenCC_new (some c)).config = "s2t" ∧ (OpenCC_new (some c)).last_error ≠ "") ∧
    (∀ (st : OpenCCState) (c : String), CONFIG_SET.contains c = true →
      apply_config st c = ⟨c, ""⟩) ∧
    (∀ (st : OpenCCState) (c : String), CONFIG_SET.contains c = false →
      (apply_config st c).config = "s2t" ∧ (apply_config st c).last_error ≠ "") := by
  refine ⟨⟨by decide, by decide⟩, rfl, ?_, ?_, ?_, ?_⟩
  · intro c hc
    simp only [OpenCC_new]
    rw [if_pos hc]
  · intro c hc
    simp only [OpenCC_new]
    rw [if_neg (by rw [hc]; simp)]
    exact ⟨rfl, invalid_config_message_ne_empty c⟩
  · intro st c hc
    simp only [apply_config]
    rw [if_pos hc]
  · intro st c hc
    simp only [apply_config]
    rw [if_neg (by rw [hc]; simp)]
    exact ⟨rfl, invalid_config_message_ne_empty c⟩

/-- Witness for C10 at concrete configs "t2s" (supported) and "bogus"
(unsupported). -/
theorem opencc_config_handling_witness :
    OpenCC_new (some "t2s") = ⟨"t2s", ""⟩ ∧
    ((OpenCC_new (some "bogus")).config = "s2t" ∧
      (OpenCC_new (some "bogus")).last_error ≠ "") ∧
    apply_config ⟨"s2t", ""⟩ "hk2t" = ⟨"hk2t", ""⟩ ∧
    ((apply_config ⟨"t2s", ""⟩ "x2y").config = "s2t" ∧
      (apply_config ⟨"t2s", ""⟩ "x2y").last_error ≠ "") :=
  ⟨opencc_config_handling.2.2.1 "t2s" rfl,
   opencc_config_handling.2.2.2.1 "bogus" rfl,
   opencc_config_handling.2.2.2.2.1 ⟨"s2t", ""⟩ "hk2t" rfl,
   opencc_config_handling.2.2.2.2.2 ⟨"t2s", ""⟩ "x2y" rfl⟩

-- ---------------------------------------------------------------------------
-- C8: dialog-state nesting invariants
-- ---------------------------------------------------------------------------

/-- The operations the driver performs on a DialogState. -/
inductive DSOp where
  | reset : DSOp
  | update : List Char → DSOp

/-- Apply one driver operation. -/
def applyDSOp (st : DialogState) : DSOp → DialogState
  | .reset => DialogState.init
  | .update s => st.update s

/-- Apply a sequence of driver operations. -/
def applyDSOps (st : DialogState) (ops : List DSOp) : DialogState :=
  ops.foldl applyDSOp st

/-- The six nesting counters as a list. -/
def counters (st : DialogState) : List Int :=
  [st.double_quote, st.single_quote, st.corner, st.corner_bold,
   st.corner_top, st.corner_wide]

/-- All counters non-negative. -/
def DialogState.Nonneg (st : DialogState) : Prop :=
  0 ≤ st.double_quote ∧ 0 ≤ st.single_quote ∧ 0 ≤ st.corner ∧
  0 ≤ st.corner_bold ∧ 0 ≤ st.corner_top ∧ 0 ≤ st.corner_wide

set_option maxHeartbeats 1000000 in
lemma updChar_nonneg {st : DialogState} (h : st.Nonneg) (ch : Char) :
    (st.updChar ch).Nonneg := by
  obtain ⟨h1, h2, h3, h4, h5, h6⟩ := h
  unfold DialogState.updChar
  by_cases c1 : ch = '“'
  · rw [if_pos c1]; exact ⟨by show 0 ≤ st.double_quote + 1; omega, h2, h3, h4, h5, h6⟩
  rw [if_neg c1]
  by_cases c2 : ch = '”'
  · rw [if_pos c2]; exact ⟨le_max_right _ _, h2, h3, h4, h5, h6⟩
  rw [if_neg c2]
  by_cases c3 : ch = '‘'
  · rw [if_pos c3]; exact ⟨h1, by show 0 ≤ st.single_quote + 1; omega, h3, h4, h5, h6⟩
  rw [if_neg c3]
  by_cases c4 : ch = '’'
  · rw [if_pos c4]; exact ⟨h1, le_max_right _ _, h3, h4, h5, h6⟩
  rw [if_neg c4]
  by_cases c5 : ch = '「'
  · rw [if_pos c5]; exact ⟨h1, h2, by show 0 ≤ st.corner + 1; omega, h4, h5, h6⟩
  rw [if_neg c5]
  by_cases c6 : ch = '」'
  · rw [if_pos c6]; exact ⟨h1, h2, le_max_right _ _, h4, h5, h6⟩
  rw [if_neg c6]
  by_cases c7 : ch = '『'
  · rw [if_pos c7]; exact ⟨h1, h2, h3, by show 0 ≤ st.corner_bold + 1; omega, h5, h6⟩
  rw [if_neg c7]
  by_cases c8 : ch = '』'
  · rw [if_pos c8]; exact ⟨h1, h2, h3, le_max_right _ _, h5, h6⟩
  rw [if_neg c8]
  by_cases c9 : ch = '﹁'
  · rw [if_pos c9]; exact ⟨h1, h2, h3, h4, by show 0 ≤ st.corner_top + 1; omega, h6⟩
  rw [if_neg c9]
  by_cases c10 : ch = '﹂'
  · rw [if_pos c10]; exact ⟨h1, h2, h3, h4, le_max_right _ _, h6⟩
  rw [if_neg c10]
  by_cases c11 : ch = '﹃'
  · rw [if_pos c11]; exact ⟨h1, h2, h3, h4, h5, by show 0 ≤ st.corner_wide + 1; omega⟩
  rw [if_neg c11]
  by_cases c12 : ch = '﹄'
  · rw [if_pos c12]; exact ⟨h1, h2, h3, h4, h5, le_max_right _ _⟩
  rw [if_neg c12]
  exact ⟨h1, h2, h3, h4, h5, h6⟩

lemma update_nonneg {st : DialogState} (h : st.Nonneg) (s : List Char) :
    (st.update s).Nonneg := by
  induction s generalizing st with
  | nil => exact h
  | cons c rest ih =>
    exact ih (updChar_nonneg h c)

lemma applyDSOps_nonneg {st : DialogState} (h : st.Nonneg) (ops : List DSOp) :
    (applyDSOps st ops).Nonneg := by
  induction ops generalizing st with
  | nil => exact h
  | cons op rest ih =>
    refine ih ?_
    cases op with
    | reset =>
        exact ⟨le_refl 0, le_refl 0, le_refl 0, le_refl 0, le_refl 0, le_refl 0⟩
    | update s => exact update_nonneg h s

/-- C8: starting from the initial state, any sequence of reset/update
operations keeps every counter non-negative; a closer hitting a counter that
is already zero leaves it at zero (the clamp), and is_unclosed holds exactly
when some counter is strictly positive. -/
theorem dialog_state_invariants :
    (∀ ops : List DSOp, (applyDSOps DialogState.init ops).Nonneg) ∧
    (∀ st : DialogState,
      (st.double_quote = 0 → (st.updChar '”').double_quote = 0) ∧
      (st.single_quote = 0 → (st.updChar '’').single_quote = 0) ∧
      (st.corner = 0 → (st.updChar '」').corner = 0) ∧
      (st.corner_bold = 0 → (st.updChar '』').corner_bold = 0) ∧
      (st.corner_top = 0 → (st.updChar '﹂').corner_top = 0) ∧
      (st.corner_wide = 0 → (st.updChar '﹄').corner_wide = 0)) ∧
    (∀ st : DialogState, st.is_unclosed = true ↔ ∃ x ∈ counters st, 0 < x) := by
  refine ⟨?_, ?_, ?_⟩
  · intro ops
    exact applyDSOps_nonneg
      ⟨le_refl 0, le_refl 0, le_refl 0, le_refl 0, le_refl 0, le_refl 0⟩ ops
  · intro st
    refine ⟨?_, ?_, ?_, ?_, ?_, ?_⟩ <;>
      (intro h; simp [DialogState.updChar, h])
  · intro st
    simp only [DialogState.is_unclosed, counters, Bool.or_eq_true,
      decide_eq_true_eq, List.mem_cons, List.not_mem_nil, or_false]
    constructor
    · intro h
      rcases h with ((((h | h) | h) | h) | h) | h
      · exact ⟨st.double_quote, Or.inl rfl, h⟩
      · exact ⟨st.single_quote, Or.inr (Or.inl rfl), h⟩
      · exact ⟨st.corner, Or.inr (Or.inr (Or.inl rfl)), h⟩
      · exact ⟨st.corner_bold, Or.inr (Or.inr (Or.inr (Or.inl rfl))), h⟩
      · exact ⟨st.corner_top, Or.inr (Or.inr (Or.inr (Or.inr (Or.inl rfl)))), h⟩
      · exact ⟨st.corner_wide, Or.inr (Or.inr (Or.inr (Or.inr (Or.inr rfl)))), h⟩
    · rintro ⟨x, hx | hx | hx | hx | hx | hx, hpos⟩ <;> subst hx <;> tauto

/-- Witness for C8: a concrete operation sequence with an orphan closer, the
clamp at zero, and the is_unclosed equivalence at a concrete state. -/
theorem dialog_state_invariants_witness :
    (applyDSOps DialogState.init
      [DSOp.update "「「说」".toList, DSOp.update "」」完。".toList]).Nonneg ∧
    (DialogState.init.updChar '」').corner = 0 ∧
    (DialogState.is_unclosed (DialogState.update DialogState.init "「你好".toList) = true
      ↔ ∃ x ∈ counters (DialogState.update DialogState.init "「你好".toList), 0 < x) :=
  ⟨dialog_state_invariants.1 _,
   (dialog_state_invariants.2.1 DialogState.init).2.2.1 rfl,
   dialog_state_invariants.2.2 _⟩

-- ---------------------------------------------------------------------------
-- Generic list lemmas shared by several claims
-- ---------------------------------------------------------------------------

lemma mem_dropWhile_of_mem {p : Char → Bool} {l : List Char} {c : Char}
    (hc : c ∈ l) (hp : p c = false) : c ∈ l.dropWhile p := by
  have hsplit := List.takeWhile_append_dropWhile (p := p) (l := l)
  rw [← hsplit] at hc
  rcases List.mem_append.mp hc with h | h
  · exact absurd (List.mem_takeWhile_imp h) (by simp [hp])
  · exact h

lemma mem_trimEnd_of_mem {l : List Char} {c : Char}
    (hc : c ∈ l) (hw : isWhitespace c = false) : c ∈ trimEnd l := by
  unfold trimEnd
  rw [List.mem_reverse]
  exact mem_dropWhile_of_mem (List.mem_reverse.mpr hc) hw

lemma mem_trim_of_mem {l : List Char} {c : Char}
    (hc : c ∈ l) (hw : isWhitespace c = false) : c ∈ trim l := by
  unfold trim trimStart
  exact mem_dropWhile_of_mem (mem_trimEnd_of_mem hc hw) hw

-- ---------------------------------------------------------------------------
-- C4: clause punctuation disqualifies strong title headings
-- ---------------------------------------------------------------------------

/-- C4: a line containing any comma or clause-separating punctuation
character (，, ',', 。, ！, ？, ；) is never classified as a strong title
heading, so the driver never emits it standalone on that basis. -/
theorem title_heading_rejects_clause_punct (s : List Char)
    (h : s.any (fun c => HEADING_REJECT_PUNCT.contains c) = true) :
    is_title_heading_line s = false := by
  obtain ⟨c, hcmem, hcp⟩ := List.any_eq_true.mp h
  have hcw : isWhitespace c = false := by
    have : c ∈ HEADING_REJECT_PUNCT := by simpa using hcp
    fin_cases this <;> decide
  have hany : (trim s).any (fun c => HEADING_REJECT_PUNCT.contains c) = true :=
    List.any_eq_true.mpr ⟨c, mem_trim_of_mem hcmem hcw, hcp⟩
  simp only [is_title_heading_line]
  by_cases he : (trim s).isEmpty = true
  · rw [if_pos he]
  · rw [if_neg he]
    by_cases hb : 50 < (trim s).length
    · rw [if_pos hb]
    · rw [if_neg hb, if_pos hany]

/-- Witness for C4 at the concrete line 第一章，好 (a would-be chapter
heading disqualified by its comma). -/
theorem title_heading_rejects_clause_punct_witness :
    "第一章，好".toList.any (fun c => HEADING_REJECT_PUNCT.contains c) = true ∧
    is_title_heading_line "第一章，好".toList = false :=
  ⟨by decide, title_heading_rejects_clause_punct _ (by decide)⟩

-- ---------------------------------------------------------------------------
-- C5: chapter-ending line length measurement
-- ---------------------------------------------------------------------------

lemma strip_chapter_trail_fuel_eq (l : List Char) :
    ∀ fuel : Nat, l.length ≤ fuel →
      strip_chapter_trail_fuel fuel l =
        (l.reverse.dropWhile (fun c => CHAPTER_TRAIL_BRACKETS.contains c)).reverse := by
  induction l using List.reverseRecOn with
  | nil => intro fuel _; cases fuel <;> rfl
  | append_singleton xs a ih =>
    intro fuel hle
    cases fuel with
    | zero => simp at hle
    | succ f =>
      rw [strip_chapter_trail_fuel, List.getLast?_concat]
      dsimp only
      have hf : xs.length ≤ f := by
        simp only [List.length_append, List.length_singleton] at hle
        omega
      by_cases hp : CHAPTER_TRAIL_BRACKETS.contains a = true
      · rw [if_pos hp, List.dropLast_concat, ih f hf, List.reverse_append]
        have hm : a ∈ CHAPTER_TRAIL_BRACKETS := by simpa using hp
        simp [List.dropWhile_cons, hm]
      · have hm : a ∉ CHAPTER_TRAIL_BRACKETS := by simpa using hp
        rw [if_neg hp, List.reverse_append]
        simp [List.dropWhile_cons, hm]

lemma strip_chapter_trail_eq (l : List Char) :
    strip_chapter_trail l =
      (l.reverse.dropWhile (fun c => CHAPTER_TRAIL_BRACKETS.contains c)).reverse :=
  strip_chapter_trail_fuel_eq l (l.length + 1) (Nat.le_succ _)

/-- The chapter-ending-line rule exactly as the specification words it:
the 15-character limit is measured on the text left AFTER stripping the
trailing run of closing brackets. -/
def chapter_ending_line_spec (line : List Char) : Bool :=
  let s := trim line
  let stripped :=
    (s.reverse.dropWhile (fun c => CHAPTER_TRAIL_BRACKETS.contains c)).reverse
  stripped.length ≤ 15 &&
  (match stripped.getLast? with
   | some last => CHAPTER_MARKERS.contains last
   | none => false)

/-- C5 counterexample: a 16-character line whose bracket-stripped text is 15
characters ending in 章.  The specification's reading classifies it as a
chapter-ending line; the code rejects it, because the code checks the
15-character limit on the full trimmed line BEFORE stripping the trailing
closers. -/
theorem chapter_ending_line_counterexample :
    chapter_ending_line_spec "天天天天天天天天天天天天天天章」".toList = true ∧
    is_chapter_ending_line "天天天天天天天天天天天天天天章」".toList = false ∧
    "天天天天天天天天天天天天天天章」".toList.length = 16 := by
  refine ⟨by decide, by decide, by decide⟩

/-- C5 amended: the classifier returns true iff the FULL trimmed line is at
most 15 characters long (measured before any stripping) and the last
character left after stripping the trailing run of closing brackets is a
chapter-marker glyph. -/
theorem chapter_ending_line_amended (line : List Char) :
    is_chapter_ending_line line = true ↔
      ((trim line).length ≤ 15 ∧
        ∃ last, ((trim line).reverse.dropWhile
            (fun c => CHAPTER_TRAIL_BRACKETS.contains c)).head? = some last ∧
          CHAPTER_MARKERS.contains last = true) := by
  simp only [is_chapter_ending_line, strip_chapter_trail_eq]
  by_cases he : (trim line).isEmpty = true
  · have hnil : trim line = [] := by simpa using he
    simp [hnil]
  · have hne : trim line ≠ [] := by simpa using he
    by_cases hlen : 15 < (trim line).length
    · rw [if_pos]
      · simp only [Bool.false_eq_true, false_iff, not_and]
        intro hle
        omega
      · simp [hlen]
    · rw [if_neg]
      · rw [List.getLast?_reverse]
        cases hh : ((trim line).reverse.dropWhile
            (fun c => CHAPTER_TRAIL_BRACKETS.contains c)).head? with
        | none => simp [hh]
        | some last =>
          simp only [hh]
          constructor
          · intro hc
            exact ⟨by omega, last, rfl, hc⟩
          · rintro ⟨-, last', hlast', hc⟩
            cases Option.some.inj hlast'
            exact hc
      · simp [hlen, he]

-- ---------------------------------------------------------------------------
-- C1: blank-line handling with page-gap suppression
-- ---------------------------------------------------------------------------

lemma all_ws_trimEnd_nil {l : List Char} (h : l.all isWhitespace = true) :
    trimEnd l = [] := by
  unfold trimEnd
  have hdrop : l.reverse.dropWhile isWhitespace = [] := by
    rw [List.dropWhile_eq_nil_iff]
    intro x hx
    exact (List.all_eq_true.mp h) x (List.mem_reverse.mp hx)
  rw [hdrop]
  rfl

/-- On an all-whitespace line the driver reaches the blank-line branch:
suppress the blank, or flush a non-empty buffer. -/
lemma processLine_blank (hdr : Bool) (st : ReflowState) (raw : List Char)
    (h1 : trimEnd raw = []) :
    processLine hdr st raw =
      if !hdr && !st.buffer.isEmpty &&
         !((lastNonWs st.buffer).elim false is_strong_sentence_end) then st
      else flushBuffer st := by
  rw [processLine, h1]
  rfl

/-- C1 amended: with page-gap preservation disabled and a non-empty buffer,
a blank line flushes the buffer if and only if the buffer's last
non-whitespace character is a strong sentence terminator (。！？ or ASCII
!/?); the dialog/bracket nesting state is NOT consulted.  In every other
case the blank line is suppressed and the state is unchanged, and a blank
line never appends an empty segment. -/
theorem blank_line_flush_iff_strong_end (st : ReflowState) (raw : List Char)
    (hws : raw.all isWhitespace = true) (hbuf : st.buffer ≠ []) :
    (processLine false st raw =
       if (lastNonWs st.buffer).elim false is_strong_sentence_end then
         { segments := st.segments ++ [st.buffer], buffer := [],
           ds := DialogState.init }
       else st) ∧
    (∀ seg ∈ (processLine false st raw).segments,
       seg ∈ st.segments ∨ seg = st.buffer) := by
  have h1 := all_ws_trimEnd_nil hws
  have hred := processLine_blank false st raw h1
  have hbe : st.buffer.isEmpty = false := by
    cases hb : st.buffer with
    | nil => exact absurd hb hbuf
    | cons c cs => rfl
  constructor
  · rw [hred]
    cases hs : (lastNonWs st.buffer).elim false is_strong_sentence_end with
    | false =>
      rw [if_pos (by simp [hbe, hs]), if_neg (by simp [hs])]
    | true =>
      rw [if_neg (by simp [hbe, hs]), if_pos (by simp [hs]),
        flushBuffer, if_neg (by simp [hbe])]
  · intro seg hseg
    rw [hred] at hseg
    split at hseg
    · exact Or.inl hseg
    · rw [flushBuffer] at hseg
      rw [if_neg (by simp [hbe])] at hseg
      simp only [List.mem_append, List.mem_singleton] at hseg
      rcases hseg with h | h
      · exact Or.inl h
      · exact Or.inr h

/-- Witness for the amended C1 at a concrete accumulating state (buffer
ending in 。, so the blank flushes) and a concrete blank line of spaces. -/
theorem blank_line_flush_iff_strong_end_witness :
    ("  ".toList.all isWhitespace = true) ∧
    (("他说。".toList : List Char) ≠ []) ∧
    processLine false ⟨[], "他说。".toList, DialogState.init⟩ "  ".toList =
      { segments := ["他说。".toList], buffer := [], ds := DialogState.init } :=
  ⟨by decide, by decide, by
    have h := (blank_line_flush_iff_strong_end
      ⟨[], "他说。".toList, DialogState.init⟩ "  ".toList
      (by decide) (by decide)).1
    rw [h]
    decide⟩

/-- C1 counterexample: the original claim also requires the buffer to be
outside any unclosed quote for the flush to happen, but the code flushes on
a strong terminator regardless of nesting.  After the line 「你好。 (an
unclosed corner quote ending in 。) the buffer is inside an open quotation,
yet the following blank line still flushes it as a segment, as the full run
also shows. -/
theorem blank_flush_inside_quote_counterexample :
    (processLine false ReflowState.init "「你好。".toList).buffer = "「你好。".toList ∧
    (processLine false ReflowState.init "「你好。".toList).ds.is_unclosed = true ∧
    (processLine false (processLine false ReflowState.init "「你好。".toList)
        []).segments = ["「你好。".toList] ∧
    (processLine false (processLine false ReflowState.init "「你好。".toList)
        []).buffer = [] ∧
    reflowSegments "「你好。\n\n再见吧你们几个朋友们".toList false =
      ["「你好。".toList, "再见吧你们几个朋友们".toList] := by
  decide

-- ---------------------------------------------------------------------------
-- C3: colon + dialogue-opener continuation
-- ---------------------------------------------------------------------------

/-- C3: with buffer 他說： and next line 「你好。」 the driver does NOT merge
and flush the pair as one segment: the dialogue-opener branch (which flushes
the buffer whenever its last character is not comma-like) runs before the
colon-continuation branch, so 他說： is emitted alone and 「你好。」 starts a
fresh buffer.  The colon-continuation branch of the code is unreachable,
contradicting the code's own comment ("treat it as continuation within the
same paragraph") and the specification.  The same split shows up in a full
run on 他走過來，/他說：/「你好。」. -/
theorem colon_dialog_opener_no_merge :
    processLine false
        ⟨[], "他說：".toList, DialogState.update DialogState.init "他說：".toList⟩
        "「你好。」".toList =
      ⟨["他說：".toList], "「你好。」".toList,
        DialogState.update DialogState.init "「你好。」".toList⟩ ∧
    reflowSegments "他走過來，\n他說：\n「你好。」".toList false =
      ["他走過來，他說：".toList, "「你好。」".toList] := by
  decide

-- ---------------------------------------------------------------------------
-- C6: full-width indent through the pipeline
-- ---------------------------------------------------------------------------

/-- C6 counterexample: the indent-stripping helper does keep the leading
U+3000 of 　你好, but the repeated-segment collapse then trims it, so the
emitted output of the full run no longer contains the full-width indent. -/
theorem fullwidth_indent_counterexample :
    strip_halfwidth_indent_keep_fullwidth (trimEnd "　你好".toList) =
      "　你好".toList ∧
    reflow_cjk_paragraphs "　你好".toList false false = "你好".toList ∧
    '　' ∉ "你好".toList := by
  decide

-- ---------------------------------------------------------------------------
-- C7: re-reflowing the engine's own output
-- ---------------------------------------------------------------------------

/-- C7 counterexample: reflowing 天黑了；/他來了，/坐下了。 yields the two
segments 天黑了； and 他來了，坐下了。, but running the engine again on its
own (spaced, compact = false) output merges them into a single segment —
the blank line after 天黑了； is suppressed (no strong terminator) and the
second segment, now one line ending in 。, is appended and flushed together
with it.  Segment boundaries are not preserved. -/
theorem reflow_second_pass_merges_counterexample :
    reflowSegments "天黑了；\n他來了，\n坐下了。".toList false =
      ["天黑了；".toList, "他來了，坐下了。".toList] ∧
    reflow_cjk_paragraphs "天黑了；\n他來了，\n坐下了。".toList false false =
      "天黑了；\n\n他來了，坐下了。".toList ∧
    reflowSegments
        (reflow_cjk_paragraphs "天黑了；\n他來了，\n坐下了。".toList false false)
        false =
      ["天黑了；他來了，坐下了。".toList] := by
  decide

-- ---------------------------------------------------------------------------
-- Tokenisation lemmas (C9, and shared with C6/C7)
-- ---------------------------------------------------------------------------

lemma dropWhile_head_not (p : Char → Bool) (m : List Char) :
    m.dropWhile p = [] ∨
      ∃ c rest, m.dropWhile p = c :: rest ∧ p c = false := by
  induction m with
  | nil => exact Or.inl rfl
  | cons c rest ih =>
    rw [List.dropWhile_cons]
    by_cases hp : p c = true
    · rw [if_pos hp]; exact ih
    · rw [if_neg hp]
      exact Or.inr ⟨c, rest, rfl, by simpa using hp⟩

lemma split_whitespace_go_tokens :
    ∀ (l cur : List Char), cur.all (fun c => !(isWhitespace c)) = true →
      ∀ t ∈ split_whitespace_go cur l,
        t ≠ [] ∧ t.all (fun c => !(isWhitespace c)) = true ∧
          ∀ c ∈ t, c ∈ cur ∨ c ∈ l := by
  intro l
  induction l with
  | nil =>
    intro cur hcur t ht
    rw [split_whitespace_go] at ht
    by_cases hc : cur.isEmpty = true
    · rw [if_pos hc] at ht; cases ht
    · rw [if_neg hc] at ht
      have ht' : t = cur.reverse := List.mem_singleton.mp ht
      subst ht'
      refine ⟨?_, ?_, ?_⟩
      · intro hnil
        exact hc (by simp [List.isEmpty_iff, ← List.reverse_eq_nil_iff, hnil])
      · rw [List.all_eq_true] at hcur ⊢
        intro c hcm
        exact hcur c (List.mem_reverse.mp hcm)
      · intro c hcm
        exact Or.inl (List.mem_reverse.mp hcm)
  | cons c rest ih =>
    intro cur hcur t ht
    rw [split_whitespace_go] at ht
    by_cases hw : isWhitespace c = true
    · rw [if_pos hw] at ht
      by_cases hc : cur.isEmpty = true
      · rw [if_pos hc] at ht
        obtain ⟨h1, h2, h3⟩ := ih [] rfl t ht
        exact ⟨h1, h2, fun x hx => Or.inr (List.mem_cons_of_mem c
          ((h3 x hx).resolve_left (by intro hxm; cases hxm)))⟩
      · rw [if_neg hc] at ht
        rcases List.mem_cons.mp ht with ht' | ht'
        · subst ht'
          refine ⟨?_, ?_, ?_⟩
          · intro hnil
            exact hc (by simp [List.isEmpty_iff, ← List.reverse_eq_nil_iff, hnil])
          · rw [List.all_eq_true] at hcur ⊢
            intro x hxm
            exact hcur x (List.mem_reverse.mp hxm)
          · intro x hxm
            exact Or.inl (List.mem_reverse.mp hxm)
        · obtain ⟨h1, h2, h3⟩ := ih [] rfl t ht'
          exact ⟨h1, h2, fun x hx => Or.inr (List.mem_cons_of_mem c
            ((h3 x hx).resolve_left (by intro hxm; cases hxm)))⟩
    · rw [if_neg hw] at ht
      have hcur' : (c :: cur).all (fun x => !(isWhitespace x)) = true := by
        rw [List.all_cons, hcur]
        simp [hw]
      obtain ⟨h1, h2, h3⟩ := ih (c :: cur) hcur' t ht
      refine ⟨h1, h2, ?_⟩
      intro x hx
      rcases h3 x hx with hxm | hxm
      · rcases List.mem_cons.mp hxm with h | h
        · exact Or.inr (h ▸ List.mem_cons_self c rest)
        · exact Or.inl h
      · exact Or.inr (List.mem_cons_of_mem c hxm)

lemma split_whitespace_go_ne_nil :
    ∀ (l cur : List Char), cur ≠ [] → split_whitespace_go cur l ≠ [] := by
  intro l
  induction l with
  | nil =>
    intro cur hcur
    rw [split_whitespace_go]
    rw [if_neg (by simpa [List.isEmpty_iff] using hcur)]
    simp
  | cons c rest ih =>
    intro cur hcur
    rw [split_whitespace_go]
    by_cases hw : isWhitespace c = true
    · rw [if_pos hw, if_neg (by simpa [List.isEmpty_iff] using hcur)]
      simp
    · rw [if_neg hw]
      exact ih (c :: cur) (by simp)

/-- Every split_whitespace token is non-empty, whitespace-free, and drawn
from the input's characters. -/
lemma split_whitespace_tokens (l : List Char) :
    ∀ t ∈ split_whitespace l,
      t ≠ [] ∧ t.all (fun c => !(isWhitespace c)) = true ∧ ∀ c ∈ t, c ∈ l := by
  intro t ht
  obtain ⟨h1, h2, h3⟩ := split_whitespace_go_tokens l [] rfl t ht
  exact ⟨h1, h2, fun c hc =>
    (h3 c hc).resolve_left (by intro hm; cases hm)⟩

lemma split_whitespace_ne_nil {l : List Char} {c : Char} {rest : List Char}
    (hl : l = c :: rest) (hc : isWhitespace c = false) :
    split_whitespace l ≠ [] := by
  subst hl
  rw [split_whitespace, split_whitespace_go, if_neg (by simp [hc])]
  exact split_whitespace_go_ne_nil rest [c] (by simp)

lemma try_phrase_lens_fuel_bounds (parts : List (List Char)) (start : Nat) :
    ∀ (fuel plen plen' c : Nat), 1 ≤ plen →
      try_phrase_lens_fuel parts start fuel plen = some (plen', c) →
      1 ≤ plen' ∧ start + plen' ≤ parts.length := by
  intro fuel
  induction fuel with
  | zero => intro plen plen' c _ h; cases h
  | succ fuel ih =>
    intro plen plen' c hp h
    rw [try_phrase_lens_fuel] at h
    by_cases h8 : 8 < plen
    · rw [if_pos h8] at h; cases h
    · rw [if_neg h8] at h
      by_cases hlen : parts.length < start + plen
      · rw [if_pos hlen] at h; cases h
      · rw [if_neg hlen] at h
        by_cases h3 : 3 ≤ count_repeats parts start plen 1
        · rw [if_pos h3, Option.some.injEq, Prod.mk.injEq] at h
          obtain ⟨h1, -⟩ := h
          omega
        · rw [if_neg h3] at h
          exact ih (plen + 1) plen' c (by omega) h

lemma find_repeat_start_fuel_bounds (parts : List (List Char)) :
    ∀ (fuel s0 start plen c : Nat),
      find_repeat_start_fuel parts fuel s0 = some (start, plen, c) →
      1 ≤ plen ∧ start + plen ≤ parts.length := by
  intro fuel
  induction fuel with
  | zero => intro s0 start plen c h; cases h
  | succ fuel ih =>
    intro s0 start plen c h
    rw [find_repeat_start_fuel] at h
    by_cases hs : parts.length ≤ s0
    · rw [if_pos hs] at h; cases h
    · rw [if_neg hs] at h
      cases htl : try_phrase_lens parts s0 1 with
      | some pc =>
        obtain ⟨plen', c'⟩ := pc
        rw [htl] at h
        dsimp only at h
        rw [Option.some.injEq, Prod.mk.injEq, Prod.mk.injEq] at h
        obtain ⟨h1, h2, h3⟩ := h
        have hb := try_phrase_lens_fuel_bounds parts s0 9 1 plen' c'
          (le_refl 1) htl
        omega
      | none =>
        rw [htl] at h
        exact ih (s0 + 1) start plen c h

lemma collapse_word_sequences_ne_nil {parts : List (List Char)}
    (hne : parts ≠ []) : collapse_repeated_word_sequences parts ≠ [] := by
  rw [collapse_repeated_word_sequences]
  by_cases hlt : parts.length < 3
  · rw [if_pos hlt]; exact hne
  · rw [if_neg hlt]
    cases hfind : find_repeat_start parts 0 with
    | none => exact hne
    | some spc =>
      obtain ⟨start, plen, c⟩ := spc
      obtain ⟨hp1, hp2⟩ := find_repeat_start_fuel_bounds parts
        (parts.length + 1) 0 start plen c hfind
      intro hnil
      dsimp only at hnil
      have hmid : (parts.drop start).take plen ≠ [] := by
        have : ((parts.drop start).take plen).length = min plen (parts.length - start) := by
          rw [List.length_take, List.length_drop]
        intro hmidnil
        rw [hmidnil] at this
        simp only [List.length_nil] at this
        omega
      rw [List.append_assoc] at hnil
      rcases List.append_eq_nil.mp hnil with ⟨-, h2⟩
      rcases List.append_eq_nil.mp h2 with ⟨h3, -⟩
      exact hmid h3

lemma collapse_word_sequences_subset {parts : List (List Char)} :
    ∀ x ∈ collapse_repeated_word_sequences parts, x ∈ parts := by
  intro x hx
  rw [collapse_repeated_word_sequences] at hx
  by_cases hlt : parts.length < 3
  · rw [if_pos hlt] at hx; exact hx
  · rw [if_neg hlt] at hx
    cases hfind : find_repeat_start parts 0 with
    | none => rw [hfind] at hx; exact hx
    | some spc =>
      obtain ⟨start, plen, c⟩ := spc
      rw [hfind] at hx
      dsimp only at hx
      rcases List.mem_append.mp hx with hx' | hx'
      · rcases List.mem_append.mp hx' with hx'' | hx''
        · exact List.take_subset _ _ hx''
        · exact List.drop_subset _ _ (List.take_subset _ _ hx'')
      · exact List.drop_subset _ _ hx'

lemma collapse_token_loop_fuel_shape (chars : List Char) :
    ∀ (fuel u : Nat), 1 ≤ u →
      collapse_token_loop_fuel chars fuel u = chars ∨
        ∃ u', 1 ≤ u' ∧ u' ≤ chars.length ∧
          collapse_token_loop_fuel chars fuel u = chars.take u' := by
  intro fuel
  induction fuel with
  | zero => intro u _; exact Or.inl rfl
  | succ fuel ih =>
    intro u hu
    rw [collapse_token_loop_fuel]
    by_cases h10 : 10 < u
    · rw [if_pos h10]; exact Or.inl rfl
    · rw [if_neg h10]
      by_cases hdiv : chars.length / 3 < u
      · rw [if_pos hdiv]; exact Or.inl rfl
      · rw [if_neg hdiv]
        by_cases hmod : chars.length % u ≠ 0
        · rw [if_pos hmod]; exact ih (u + 1) (by omega)
        · rw [if_neg hmod]
          by_cases hrep : token_unit_repeats chars u = true
          · rw [if_pos hrep]
            refine Or.inr ⟨u, hu, ?_, rfl⟩
            have h3 : u ≤ chars.length / 3 := by omega
            have := Nat.div_le_self chars.length 3
            omega
          · rw [if_neg hrep]; exact ih (u + 1) (by omega)

lemma collapse_repeated_token_props {t : List Char}
    (hne : t ≠ []) (hws : t.all (fun c => !(isWhitespace c)) = true) :
    collapse_repeated_token t ≠ [] ∧
    (collapse_repeated_token t).all (fun c => !(isWhitespace c)) = true ∧
    ∀ c ∈ collapse_repeated_token t, c ∈ t := by
  rw [collapse_repeated_token]
  by_cases hlen : t.length < 4 || 200 < t.length
  · rw [if_pos hlen]
    exact ⟨hne, hws, fun c hc => hc⟩
  · rw [if_neg hlen]
    rcases collapse_token_loop_fuel_shape t 11 4 (by omega) with hsh | ⟨u', hu1, hu2, hsh⟩
    · rw [collapse_token_loop, hsh]
      exact ⟨hne, hws, fun c hc => hc⟩
    · rw [collapse_token_loop, hsh]
      refine ⟨?_, ?_, fun c hc => List.take_subset _ _ hc⟩
      · intro hnil
        have hlen' : (t.take u').length = min u' t.length := List.length_take _ _
        rw [hnil] at hlen'
        simp only [List.length_nil] at hlen'
        have : 0 < t.length := List.length_pos.mpr hne
        omega
      · rw [List.all_eq_true] at hws ⊢
        intro c hc
        exact hws c (List.take_subset _ _ hc)

lemma trim_cons_not_ws {l : List Char} (h : (trim l).isEmpty = false) :
    ∃ c rest, trim l = c :: rest ∧ isWhitespace c = false := by
  rcases dropWhile_head_not isWhitespace (trimEnd l) with hnil | ⟨c, rest, heq, hc⟩
  · rw [trim, trimStart, hnil] at h
    cases h
  · exact ⟨c, rest, heq, hc⟩

/-- Normal form of the per-line collapse: a non-empty list of non-empty,
whitespace-free tokens drawn from the trimmed line, joined by single ASCII
spaces. -/
lemma collapse_repeated_segments_shape {line : List Char}
    (hnb : (trim line).isEmpty = false) :
    ∃ toks : List (List Char),
      collapse_repeated_segments line = List.intercalate [' '] toks ∧
      toks ≠ [] ∧
      (∀ t ∈ toks, t ≠ [] ∧ t.all (fun c => !(isWhitespace c)) = true ∧
        ∀ c ∈ t, c ∈ trim line) ∧
      toks = (collapse_repeated_word_sequences
        (split_whitespace (trim line))).map collapse_repeated_token := by
  obtain ⟨c0, rest0, htrim, hc0⟩ := trim_cons_not_ws hnb
  have hparts : split_whitespace (trim line) ≠ [] :=
    split_whitespace_ne_nil htrim hc0
  rw [collapse_repeated_segments]
  rw [if_neg (by simp [hnb])]
  rw [if_neg (by simpa [List.isEmpty_iff] using hparts)]
  refine ⟨_, rfl, ?_, ?_, rfl⟩
  · intro hnil
    exact collapse_word_sequences_ne_nil hparts (List.map_eq_nil_iff.mp hnil)
  · intro t ht
    obtain ⟨x, hx, hxt⟩ := List.mem_map.mp ht
    have hxparts := collapse_word_sequences_subset x hx
    obtain ⟨hx1, hx2, hx3⟩ := split_whitespace_tokens (trim line) x hxparts
    obtain ⟨ht1, ht2, ht3⟩ := collapse_repeated_token_props hx1 hx2
    rw [← hxt]
    exact ⟨ht1, ht2, fun c hc => hx3 c (ht3 c hc)⟩

-- ---------------------------------------------------------------------------
-- C9: whitespace normalization of the per-line collapse
-- ---------------------------------------------------------------------------

/-- C9: for every non-blank line, the text the driver works with is a list
of non-empty, whitespace-free tokens joined by exactly one ASCII space — so
internal whitespace runs (tabs, multiple or full-width spaces) are collapsed
to single half-width spaces and leading/trailing whitespace is removed.
When the line has no 3+-repeated phrase and no self-repeating token (both
collapses are fixpoints), the tokens are exactly the line's own
whitespace-separated tokens. -/
theorem collapse_line_whitespace_normalization (line : List Char)
    (hnb : (trim line).isEmpty = false) :
    ∃ toks : List (List Char),
      collapse_repeated_segments line = List.intercalate [' '] toks ∧
      toks ≠ [] ∧
      (∀ t ∈ toks, t ≠ [] ∧ t.all (fun c => !(isWhitespace c)) = true) ∧
      ((collapse_repeated_word_sequences (split_whitespace (trim line)) =
          split_whitespace (trim line)) →
        (∀ t ∈ split_whitespace (trim line), collapse_repeated_token t = t) →
        toks = split_whitespace (trim line)) := by
  obtain ⟨toks, h1, h2, h3, h4⟩ := collapse_repeated_segments_shape hnb
  refine ⟨toks, h1, h2, fun t ht => ⟨(h3 t ht).1, (h3 t ht).2.1⟩, ?_⟩
  intro hph htok
  rw [h4, hph]
  have hmap : (split_whitespace (trim line)).map collapse_repeated_token =
      (split_whitespace (trim line)).map id :=
    List.map_congr_left (by intro t ht; simpa using htok t ht)
  rw [hmap, List.map_id]

/-- Witness for C9 at the concrete line `␣他说→←了␣` (halfwidth spaces, a
tab and a fullwidth space), which has no repeated phrase or token. -/
theorem collapse_line_whitespace_normalization_witness :
    ((trim " 他说\t　了 ".toList).isEmpty = false) ∧
    (∃ toks : List (List Char),
      collapse_repeated_segments " 他说\t　了 ".toList =
        List.intercalate [' '] toks ∧
      toks ≠ [] ∧
      (∀ t ∈ toks, t ≠ [] ∧ t.all (fun c => !(isWhitespace c)) = true) ∧
      ((collapse_repeated_word_sequences
          (split_whitespace (trim " 他说\t　了 ".toList)) =
          split_whitespace (trim " 他说\t　了 ".toList)) →
        (∀ t ∈ split_whitespace (trim " 他说\t　了 ".toList),
          collapse_repeated_token t = t) →
        toks = split_whitespace (trim " 他说\t　了 ".toList))) :=
  ⟨by decide, collapse_line_whitespace_normalization _ (by decide)⟩

-- ---------------------------------------------------------------------------
-- C6 amended theorem
-- ---------------------------------------------------------------------------

lemma intercalate_cons (sep t : List Char) (ts : List (List Char)) :
    List.intercalate sep (t :: ts) =
      t ++ (match ts with
            | [] => []
            | _ :: _ => sep ++ List.intercalate sep ts) := by
  cases ts with
  | nil => simp [List.intercalate]
  | cons t2 ts2 => simp [List.intercalate, List.intersperse]

/-- C6 amended: the indent-stripping helper preserves a leading fullwidth
space (only halfwidth spaces are removed), but the per-line repeated-segment
collapse then trims it: for every non-blank physical line — in particular
one whose first character after halfwidth-indent stripping is U+3000 — the
line text the driver classifies, buffers and emits begins with a
non-whitespace character, so the full-width indent is not preserved there. -/
theorem fullwidth_indent_amended (raw : List Char)
    (hfw : (strip_halfwidth_indent_keep_fullwidth (trimEnd raw)).head? =
      some '　')
    (hnb : (trim (strip_halfwidth_indent_keep_fullwidth (trimEnd raw))).isEmpty
      = false) :
    ∃ c cs,
      collapse_repeated_segments
          (strip_halfwidth_indent_keep_fullwidth (trimEnd raw)) = c :: cs ∧
      isWhitespace c = false := by
  obtain ⟨toks, h1, h2, h3, -⟩ := collapse_repeated_segments_shape hnb
  cases toks with
  | nil => exact absurd rfl h2
  | cons t1 ts =>
    obtain ⟨ht1, htws, -⟩ := h3 t1 (List.mem_cons_self t1 ts)
    cases t1 with
    | nil => exact absurd rfl ht1
    | cons c cs1 =>
      rw [h1, intercalate_cons]
      refine ⟨c, _, rfl, ?_⟩
      rw [List.all_cons, Bool.and_eq_true] at htws
      simpa using htws.1

/-- Witness for the amended C6 at the concrete line 　你好 (fullwidth space
then text): the stripped visual line still starts with U+3000, yet the
collapsed line text starts with the non-whitespace 你. -/
theorem fullwidth_indent_amended_witness :
    ((strip_halfwidth_indent_keep_fullwidth (trimEnd "　你好".toList)).head? =
      some '　') ∧
    (∃ c cs,
      collapse_repeated_segments
          (strip_halfwidth_indent_keep_fullwidth (trimEnd "　你好".toList)) =
        c :: cs ∧ isWhitespace c = false) :=
  ⟨by decide, fullwidth_indent_amended _ (by decide) (by decide)⟩

-- ---------------------------------------------------------------------------
-- C7 machinery: per-line segment-count bound
-- ---------------------------------------------------------------------------

/-- Segments emitted so far plus one for a pending non-empty buffer. -/
def segWeight (st : ReflowState) : Nat :=
  st.segments.length + (if st.buffer.isEmpty then 0 else 1)

lemma isEmpty_append_false {a b : List Char} (h : a.isEmpty = false) :
    (a ++ b).isEmpty = false := by
  cases a with
  | nil => cases h
  | cons c rest => simp

lemma segWeight_softJoin (st : ReflowState) (line : List Char)
    (h : st.buffer.isEmpty = false) :
    segWeight (softJoin st line) = segWeight st := by
  unfold segWeight softJoin
  simp [h, isEmpty_append_false h]

lemma segWeight_flushStartNew (st : ReflowState) (line : List Char)
    (h : st.buffer.isEmpty = false) :
    segWeight (flushStartNew st line) ≤ segWeight st + 1 := by
  unfold segWeight flushStartNew
  simp only [List.length_append, List.length_singleton, h]
  cases line.isEmpty <;> simp <;> omega

lemma segWeight_appendFlush (st : ReflowState) (line : List Char)
    (h : st.buffer.isEmpty = false) :
    segWeight (appendFlush st line) ≤ segWeight st := by
  unfold segWeight appendFlush
  simp [h]

lemma segWeight_flushAndEmit (st : ReflowState) (line : List Char) :
    segWeight (flushAndEmit st line) ≤ segWeight st + 1 := by
  unfold segWeight flushAndEmit
  by_cases h : st.buffer.isEmpty = true
  · rw [if_pos h]
    simp [h]
  · have hf : st.buffer.isEmpty = false := by simpa using h
    rw [if_neg h]
    simp [hf]

lemma segWeight_flushBuffer (st : ReflowState) :
    segWeight (flushBuffer st) ≤ segWeight st := by
  unfold segWeight flushBuffer
  by_cases h : st.buffer.isEmpty = true
  · rw [if_pos h]
  · have hf : st.buffer.isEmpty = false := by simpa using h
    rw [if_neg h]
    simp [hf]

lemma segWeight_processAfterDialog (st : ReflowState) (line : List Char)
    (h : st.buffer.isEmpty = false) :
    segWeight (processAfterDialog st line) ≤ segWeight st + 1 := by
  unfold processAfterDialog
  split_ifs <;>
    first
      | exact le_of_eq (segWeight_softJoin st line h) |>.trans (Nat.le_succ _)
      | exact segWeight_flushStartNew st line h

lemma segWeight_processNonHeading (st : ReflowState) (line : List Char) :
    segWeight (processNonHeading st line) ≤ segWeight st + 1 := by
  unfold processNonHeading
  split_ifs with h1 h2 h3
  · rw [Bool.and_eq_true] at h1
    have hb : st.buffer.isEmpty = false := by simpa using h1.1
    exact (segWeight_appendFlush st line hb).trans (Nat.le_succ _)
  · unfold segWeight
    simp only [h2]
    cases line.isEmpty <;> simp
  · have hb : st.buffer.isEmpty = false := by simpa using h2
    exact segWeight_flushStartNew st line hb
  · have hb : st.buffer.isEmpty = false := by simpa using h2
    exact segWeight_processAfterDialog st line hb

lemma segWeight_processCollapsed (hdr : Bool) (st : ReflowState)
    (lineText : List Char) :
    segWeight (processCollapsed hdr st lineText) ≤ segWeight st + 1 := by
  unfold processCollapsed
  split_ifs with h1 h2 h3 h4 h5 h6 h7 h8
  · exact Nat.le_succ_of_le (le_refl _)
  · exact (segWeight_flushBuffer st).trans (Nat.le_succ _)
  · exact segWeight_flushAndEmit st _
  · exact segWeight_flushAndEmit st _
  · exact segWeight_flushAndEmit st _
  · -- short heading, empty buffer: standalone
    unfold segWeight
    simp [h7]
  · -- short heading, unclosed bracket: continuation
    exact segWeight_processNonHeading st _
  · -- short heading, non-empty buffer without unclosed bracket
    have hbf : st.buffer.isEmpty = false := by simpa using h7
    cases hlast : (trimEnd st.buffer).getLast? with
    | none =>
      unfold segWeight
      simp [hbf]
    | some last =>
      dsimp only
      split_ifs with hc1 hc2
      · exact segWeight_processNonHeading st _
      · exact segWeight_processNonHeading st _
      · unfold segWeight
        simp [hbf]
  · exact segWeight_processNonHeading st _

lemma segWeight_processLine (hdr : Bool) (st : ReflowState) (raw : List Char) :
    segWeight (processLine hdr st raw) ≤ segWeight st + 1 := by
  unfold processLine processStripped
  split_ifs with h1
  · exact segWeight_flushAndEmit st _
  · exact segWeight_processCollapsed hdr st _

lemma segWeight_processLine_ws (hdr : Bool) (st : ReflowState)
    (raw : List Char) (hws : raw.all isWhitespace = true) :
    segWeight (processLine hdr st raw) ≤ segWeight st := by
  rw [processLine_blank hdr st raw (all_ws_trimEnd_nil hws)]
  split
  · exact le_refl _
  · exact segWeight_flushBuffer st

/-- Lines that are not entirely whitespace. -/
def notWsLine (l : List Char) : Bool := !(l.all isWhitespace)

lemma segWeight_foldl (hdr : Bool) :
    ∀ (lines : List (List Char)) (st : ReflowState),
      segWeight (lines.foldl (processLine hdr) st) ≤
        segWeight st + lines.countP notWsLine := by
  intro lines
  induction lines with
  | nil => intro st; simp
  | cons l rest ih =>
    intro st
    rw [List.foldl_cons, List.countP_cons]
    by_cases hws : l.all isWhitespace = true
    · have h3 : notWsLine l = false := by simp [notWsLine, hws]
      rw [h3, if_neg (by simp)]
      have h1 := segWeight_processLine_ws hdr st l hws
      have h2 := ih (processLine hdr st l)
      omega
    · have h3 : notWsLine l = true := by simp [notWsLine, hws]
      rw [h3, if_pos rfl]
      have h1 := segWeight_processLine hdr st l
      have h2 := ih (processLine hdr st l)
      omega

-- ---------------------------------------------------------------------------
-- C7 machinery: segments contain no newline or carriage return
-- ---------------------------------------------------------------------------

/-- No line break characters. -/
def NoCRLF (l : List Char) : Prop := ∀ c ∈ l, c ≠ '\n' ∧ c ≠ '\r'

lemma NoCRLF_nil : NoCRLF [] := fun c hc => absurd hc (List.not_mem_nil c)

lemma NoCRLF_append {a b : List Char} (ha : NoCRLF a) (hb : NoCRLF b) :
    NoCRLF (a ++ b) := by
  intro c hc
  rcases List.mem_append.mp hc with h | h
  · exact ha c h
  · exact hb c h

lemma dropWhile_subset_self (p : Char → Bool) (l : List Char) :
    ∀ c ∈ l.dropWhile p, c ∈ l :=
  fun _ hc => (List.dropWhile_suffix p).sublist.subset hc

lemma trimEnd_subset (l : List Char) : ∀ c ∈ trimEnd l, c ∈ l := by
  intro c hc
  unfold trimEnd at hc
  rw [List.mem_reverse] at hc
  exact List.mem_reverse.mp (dropWhile_subset_self isWhitespace l.reverse c hc)

lemma trim_subset (l : List Char) : ∀ c ∈ trim l, c ∈ l := by
  intro c hc
  unfold trim trimStart at hc
  exact trimEnd_subset l c (dropWhile_subset_self isWhitespace (trimEnd l) c hc)

lemma mem_intercalate {c : Char} (sep : List Char) :
    ∀ toks : List (List Char), c ∈ List.intercalate sep toks →
      c ∈ sep ∨ ∃ t ∈ toks, c ∈ t := by
  intro toks
  induction toks with
  | nil =>
    intro h
    have hnil : List.intercalate sep ([] : List (List Char)) = [] := rfl
    rw [hnil] at h
    cases h
  | cons t ts ih =>
    intro h
    cases ts with
    | nil =>
      rw [intercalate_cons] at h
      dsimp only at h
      rw [List.append_nil] at h
      exact Or.inr ⟨t, by simp, h⟩
    | cons t2 ts2 =>
      rw [intercalate_cons] at h
      dsimp only at h
      rcases List.mem_append.mp h with h' | h'
      · exact Or.inr ⟨t, by simp, h'⟩
      · rcases List.mem_append.mp h' with h'' | h''
        · exact Or.inl h''
        · rcases ih h'' with h3 | ⟨t', ht', hc'⟩
          · exact Or.inl h3
          · exact Or.inr ⟨t', List.mem_cons_of_mem _ ht', hc'⟩

/-- Every character of the collapsed line is a space or a character of the
original line. -/
lemma collapse_chars_subset (line : List Char) :
    ∀ c ∈ collapse_repeated_segments line, c = ' ' ∨ c ∈ line := by
  intro c hc
  by_cases hnb : (trim line).isEmpty = true
  · rw [collapse_repeated_segments, if_pos hnb] at hc
    exact Or.inr hc
  · have hnb' : (trim line).isEmpty = false := by simpa using hnb
    obtain ⟨toks, h1, -, h3, -⟩ := collapse_repeated_segments_shape hnb'
    rw [h1] at hc
    rcases mem_intercalate [' '] toks hc with hsep | ⟨t, ht, hct⟩
    · exact Or.inl (List.mem_singleton.mp hsep)
    · exact Or.inr (trim_subset line c ((h3 t ht).2.2 c hct))

lemma strippedVisual_subset (raw : List Char) :
    ∀ c ∈ strip_halfwidth_indent_keep_fullwidth (trimEnd raw), c ∈ raw :=
  fun c hc => trimEnd_subset raw c
    (dropWhile_subset_self _ (trimEnd raw) c hc)

lemma strippedVisual_NoCRLF {raw : List Char} (h : NoCRLF raw) :
    NoCRLF (strip_halfwidth_indent_keep_fullwidth (trimEnd raw)) :=
  fun c hc => h c (strippedVisual_subset raw c hc)

lemma lineText_NoCRLF {raw : List Char} (h : NoCRLF raw) :
    NoCRLF (collapse_repeated_segments
      (strip_halfwidth_indent_keep_fullwidth (trimEnd raw))) := by
  intro c hc
  rcases collapse_chars_subset _ c hc with rfl | hc'
  · exact ⟨by decide, by decide⟩
  · exact h c (strippedVisual_subset raw c hc')

/-- The driver state invariant: all emitted segments and the buffer are
free of line breaks. -/
def GoodReflowState (st : ReflowState) : Prop :=
  (∀ seg ∈ st.segments, NoCRLF seg) ∧ NoCRLF st.buffer

lemma good_push {st : ReflowState} {pieces : List (List Char)}
    (hst : GoodReflowState st) (hp : ∀ s ∈ pieces, NoCRLF s) :
    ∀ s ∈ st.segments ++ pieces, NoCRLF s := by
  intro s hs
  rcases List.mem_append.mp hs with h | h
  · exact hst.1 s h
  · exact hp s h

lemma good_softJoin {st : ReflowState} {line : List Char}
    (hst : GoodReflowState st) (hl : NoCRLF line) :
    GoodReflowState (softJoin st line) :=
  ⟨hst.1, NoCRLF_append hst.2 hl⟩

lemma good_flushStartNew {st : ReflowState} {line : List Char}
    (hst : GoodReflowState st) (hl : NoCRLF line) :
    GoodReflowState (flushStartNew st line) :=
  ⟨good_push hst (by intro s hs; rw [List.mem_singleton.mp hs]; exact hst.2), hl⟩

lemma good_appendFlush {st : ReflowState} {line : List Char}
    (hst : GoodReflowState st) (hl : NoCRLF line) :
    GoodReflowState (appendFlush st line) :=
  ⟨good_push hst (by
      intro s hs
      rw [List.mem_singleton.mp hs]
      exact NoCRLF_append hst.2 hl),
   NoCRLF_nil⟩

lemma good_flushBuffer {st : ReflowState} (hst : GoodReflowState st) :
    GoodReflowState (flushBuffer st) := by
  unfold flushBuffer
  split_ifs
  · exact hst
  · exact ⟨good_push hst (by
      intro s hs
      rw [List.mem_singleton.mp hs]
      exact hst.2), NoCRLF_nil⟩

lemma good_flushAndEmit {st : ReflowState} {line : List Char}
    (hst : GoodReflowState st) (hl : NoCRLF line) :
    GoodReflowState (flushAndEmit st line) := by
  unfold flushAndEmit
  split_ifs
  · exact ⟨good_push hst (by
      intro s hs
      rw [List.mem_singleton.mp hs]
      exact hl), hst.2⟩
  · refine ⟨good_push hst ?_, NoCRLF_nil⟩
    intro s hs
    rcases List.mem_cons.mp hs with h | h
    · rw [h]; exact hst.2
    · rw [List.mem_singleton.mp h]; exact hl

lemma good_processAfterDialog {st : ReflowState} {line : List Char}
    (hst : GoodReflowState st) (hl : NoCRLF line) :
    GoodReflowState (processAfterDialog st line) := by
  unfold processAfterDialog
  split_ifs <;>
    first
      | exact good_softJoin hst hl
      | exact good_flushStartNew hst hl

lemma good_processNonHeading {st : ReflowState} {line : List Char}
    (hst : GoodReflowState st) (hl : NoCRLF line) :
    GoodReflowState (processNonHeading st line) := by
  unfold processNonHeading
  split_ifs
  · exact good_appendFlush hst hl
  · exact ⟨hst.1, hl⟩
  · exact good_flushStartNew hst hl
  · exact good_processAfterDialog hst hl

lemma good_processCollapsed (hdr : Bool) {st : ReflowState} {line : List Char}
    (hst : GoodReflowState st) (hl : NoCRLF line) :
    GoodReflowState (processCollapsed hdr st line) := by
  unfold processCollapsed
  split_ifs with h1 h2 h3 h4 h5 h6 h7 h8
  · exact hst
  · exact good_flushBuffer hst
  · exact good_flushAndEmit hst hl
  · exact good_flushAndEmit hst hl
  · exact good_flushAndEmit hst hl
  · exact ⟨good_push hst (by
      intro s hs
      rw [List.mem_singleton.mp hs]
      exact hl), hst.2⟩
  · exact good_processNonHeading hst hl
  · cases hlast : (trimEnd st.buffer).getLast? with
    | none =>
      exact ⟨good_push hst (by
        intro s hs
        rw [List.mem_singleton.mp hs]
        exact hl), hst.2⟩
    | some last =>
      dsimp only
      split_ifs with hc1 hc2
      · exact good_processNonHeading hst hl
      · exact good_processNonHeading hst hl
      · refine ⟨good_push hst ?_, NoCRLF_nil⟩
        intro s hs
        rcases List.mem_cons.mp hs with h | h
        · rw [h]; exact hst.2
        · rw [List.mem_singleton.mp h]; exact hl
  · exact good_processNonHeading hst hl

lemma good_processLine (hdr : Bool) {st : ReflowState} {raw : List Char}
    (hst : GoodReflowState st) (hraw : NoCRLF raw) :
    GoodReflowState (processLine hdr st raw) := by
  unfold processLine processStripped
  split_ifs
  · exact good_flushAndEmit hst (strippedVisual_NoCRLF hraw)
  · exact good_processCollapsed hdr hst (lineText_NoCRLF hraw)

-- ---------------------------------------------------------------------------
-- C7 machinery: lines of the re-joined output
-- ---------------------------------------------------------------------------

lemma splitChar_ne_nil (sep : Char) (l : List Char) : splitChar sep l ≠ [] := by
  induction l with
  | nil => simp [splitChar]
  | cons x xs ih =>
    rw [splitChar]
    cases h : splitChar sep xs with
    | nil => exact absurd h ih
    | cons y ys => split_ifs <;> simp

lemma splitChar_mem (sep : Char) :
    ∀ (l : List Char), ∀ p ∈ splitChar sep l, ∀ c ∈ p, c ∈ l ∧ c ≠ sep := by
  intro l
  induction l with
  | nil =>
    intro p hp c hc
    rw [splitChar] at hp
    rw [List.mem_singleton.mp hp] at hc
    cases hc
  | cons x xs ih =>
    intro p hp c hc
    rw [splitChar] at hp
    cases h : splitChar sep xs with
    | nil => exact absurd h (splitChar_ne_nil sep xs)
    | cons y ys =>
      rw [h] at hp
      dsimp only at hp
      by_cases hx : x = sep
      · rw [if_pos hx] at hp
        rcases List.mem_cons.mp hp with hp' | hp'
        · rw [hp'] at hc; cases hc
        · have hres := ih p (by rw [h]; exact hp') c hc
          exact ⟨List.mem_cons_of_mem _ hres.1, hres.2⟩
      · rw [if_neg hx] at hp
        rcases List.mem_cons.mp hp with hp' | hp'
        · rw [hp'] at hc
          rcases List.mem_cons.mp hc with hc' | hc'
          · rw [hc']
            exact ⟨List.mem_cons_self x xs, hx⟩
          · have hres := ih y (by rw [h]; exact List.mem_cons_self y ys) c hc'
            exact ⟨List.mem_cons_of_mem _ hres.1, hres.2⟩
        · have hres := ih p (by rw [h]; exact List.mem_cons_of_mem _ hp') c hc
          exact ⟨List.mem_cons_of_mem _ hres.1, hres.2⟩

lemma splitChar_not_mem {sep : Char} :
    ∀ {l : List Char}, sep ∉ l → splitChar sep l = [l] := by
  intro l
  induction l with
  | nil => intro _; rfl
  | cons x xs ih =>
    intro h
    have hxs : sep ∉ xs := fun hm => h (List.mem_cons_of_mem _ hm)
    rw [splitChar, ih hxs]
    dsimp only
    rw [if_neg (fun he : x = sep => h (he ▸ List.mem_cons_self x xs))]

lemma splitChar_cons_sep (sep : Char) (r : List Char) :
    splitChar sep (sep :: r) = [] :: splitChar sep r := by
  rw [splitChar]
  cases h : splitChar sep r with
  | nil => exact absurd h (splitChar_ne_nil sep r)
  | cons y ys =>
    dsimp only
    rw [if_pos rfl, ← h]

lemma splitChar_append_sep {sep : Char} :
    ∀ (s r : List Char), sep ∉ s →
      splitChar sep (s ++ sep :: r) = s :: splitChar sep r := by
  intro s
  induction s with
  | nil =>
    intro r _
    rw [List.nil_append, splitChar_cons_sep]
  | cons x xs ih =>
    intro r h
    have hxs : sep ∉ xs := fun hm => h (List.mem_cons_of_mem _ hm)
    rw [List.cons_append, splitChar, ih r hxs]
    cases hr : splitChar sep r with
    | nil => exact absurd hr (splitChar_ne_nil sep r)
    | cons y ys =>
      dsimp only
      rw [if_neg (fun he : x = sep => h (he ▸ List.mem_cons_self x xs))]

/-- The line sequence obtained by splitting a blank-line-joined segment
list: each segment followed by one empty line between segments. -/
def interleaveBlanks : List (List Char) → List (List Char)
  | [] => []
  | [s] => [s]
  | s :: s2 :: rest => s :: [] :: interleaveBlanks (s2 :: rest)

lemma splitChar_intercalate (sep : Char) :
    ∀ segs : List (List Char), segs ≠ [] → (∀ s ∈ segs, sep ∉ s) →
      splitChar sep (List.intercalate [sep, sep] segs) =
        interleaveBlanks segs := by
  intro segs
  induction segs with
  | nil => intro h _; exact absurd rfl h
  | cons s rest ih =>
    intro _ hmem
    cases rest with
    | nil =>
      rw [intercalate_cons]
      dsimp only
      rw [List.append_nil, interleaveBlanks]
      exact splitChar_not_mem (hmem s (List.mem_cons_self s []))
    | cons t2 rest2 =>
      rw [intercalate_cons]
      dsimp only
      have hs : sep ∉ s := hmem s (List.mem_cons_self s (t2 :: rest2))
      have hjoin : s ++ ([sep, sep] ++ List.intercalate [sep, sep] (t2 :: rest2)) =
          s ++ sep :: (sep :: List.intercalate [sep, sep] (t2 :: rest2)) := by
        simp
      rw [hjoin, splitChar_append_sep s _ hs, splitChar_cons_sep]
      rw [ih (by simp) (fun x hx => hmem x (List.mem_cons_of_mem s hx))]
      rfl

lemma countP_interleaveBlanks (p : List Char → Bool) (hp : p [] = false) :
    ∀ segs : List (List Char),
      (interleaveBlanks segs).countP p ≤ segs.length := by
  intro segs
  induction segs with
  | nil => simp [interleaveBlanks]
  | cons s rest ih =>
    cases rest with
    | nil =>
      rw [interleaveBlanks, List.countP_cons]
      simp only [List.countP_nil, List.length_singleton]
      split_ifs <;> omega
    | cons t2 rest2 =>
      rw [interleaveBlanks, List.countP_cons, List.countP_cons, hp]
      rw [if_neg (by simp)]
      have hih := ih
      simp only [List.length_cons] at hih ⊢
      split_ifs <;> omega

lemma normalizeNewlines_id :
    ∀ l : List Char, (∀ c ∈ l, c ≠ '\r') → normalizeNewlines l = l := by
  intro l
  induction l with
  | nil => intro _; rfl
  | cons x xs ih =>
    intro h
    have hx : x ≠ '\r' := h x (List.mem_cons_self x xs)
    have hxs : ∀ c ∈ xs, c ≠ '\r' := fun c hc => h c (List.mem_cons_of_mem x hc)
    cases xs with
    | nil =>
      rw [normalizeNewlines.eq_def]
      split
      · rename_i heq; simp at heq
      · rename_i heq; simp at heq
      · rename_i heq
        rw [List.cons.injEq] at heq
        exact absurd heq.1 hx
      · rename_i heq
        rw [List.cons.injEq] at heq
        obtain ⟨h1, h2⟩ := heq
        subst h1
        subst h2
        rfl
    | cons x2 xs2 =>
      rw [normalizeNewlines.eq_def]
      split
      · rename_i heq; simp at heq
      · rename_i heq
        rw [List.cons.injEq] at heq
        exact absurd heq.1 hx
      · rename_i heq
        rw [List.cons.injEq] at heq
        exact absurd heq.1 hx
      · rename_i heq
        rw [List.cons.injEq] at heq
        obtain ⟨h1, h2⟩ := heq
        subst h1
        subst h2
        rw [ih hxs]


lemma normalizeNewlines_cons_cr {x2 : Char} {xs2 : List Char} (hx2 : x2 ≠ '\n') :
    normalizeNewlines ('\r' :: x2 :: xs2) = '\n' :: normalizeNewlines (x2 :: xs2) := by
  rw [normalizeNewlines.eq_def]
  split
  · rename_i heq; simp at heq
  · rename_i heq
    rw [List.cons.injEq, List.cons.injEq] at heq
    exact absurd heq.2.1 hx2
  · rename_i heq
    rw [List.cons.injEq] at heq
    rw [heq.2]
  · rename_i hne1 hne2 heq
    rw [List.cons.injEq] at heq
    exact absurd heq.1.symm hne2

lemma normalizeNewlines_cons_other {x : Char} {xs : List Char} (hx : x ≠ '\r') :
    normalizeNewlines (x :: xs) = x :: normalizeNewlines xs := by
  rw [normalizeNewlines.eq_def]
  split
  · rename_i heq; simp at heq
  · rename_i heq
    rw [List.cons.injEq] at heq
    exact absurd heq.1 hx
  · rename_i heq
    rw [List.cons.injEq] at heq
    exact absurd heq.1 hx
  · rename_i heq
    rw [List.cons.injEq] at heq
    rw [heq.1, heq.2]

lemma normalizeNewlines_no_cr_n :
    ∀ (n : Nat) (l : List Char), l.length ≤ n →
      ∀ c ∈ normalizeNewlines l, c ≠ '\r' := by
  intro n
  induction n with
  | zero =>
    intro l hl c hc
    rw [List.eq_nil_of_length_eq_zero (Nat.le_zero.mp hl)] at hc
    cases hc
  | succ n ih =>
    intro l hl c hc
    cases l with
    | nil => cases hc
    | cons x xs =>
      by_cases hx : x = '\r'
      · subst hx
        cases xs with
        | nil =>
          have he : normalizeNewlines ['\r'] = ['\n'] := rfl
          rw [he, List.mem_singleton] at hc
          rw [hc]; decide
        | cons x2 xs2 =>
          by_cases hx2 : x2 = '\n'
          · subst hx2
            have he : normalizeNewlines ('\r' :: '\n' :: xs2) =
                '\n' :: normalizeNewlines xs2 := rfl
            rw [he] at hc
            rcases List.mem_cons.mp hc with rfl | hc'
            · decide
            · have hlen : xs2.length ≤ n := by
                simp only [List.length_cons] at hl; omega
              exact ih xs2 hlen c hc'
          · rw [normalizeNewlines_cons_cr hx2] at hc
            rcases List.mem_cons.mp hc with rfl | hc'
            · decide
            · have hlen : (x2 :: xs2).length ≤ n := by
                simp only [List.length_cons] at hl ⊢; omega
              exact ih (x2 :: xs2) hlen c hc'
      · rw [normalizeNewlines_cons_other hx] at hc
        rcases List.mem_cons.mp hc with rfl | hc'
        · exact hx
        · have hlen : xs.length ≤ n := by
            simp only [List.length_cons] at hl; omega
          exact ih xs hlen c hc'

lemma normalizeNewlines_no_cr (l : List Char) :
    ∀ c ∈ normalizeNewlines l, c ≠ '\r' :=
  normalizeNewlines_no_cr_n l.length l (le_refl _)

lemma good_init : GoodReflowState ReflowState.init :=
  ⟨fun s hs => absurd hs (List.not_mem_nil s), NoCRLF_nil⟩

lemma good_foldl (hdr : Bool) :
    ∀ (lines : List (List Char)) (st : ReflowState),
      GoodReflowState st → (∀ l ∈ lines, NoCRLF l) →
      GoodReflowState (lines.foldl (processLine hdr) st) := by
  intro lines
  induction lines with
  | nil => intro st hst _; exact hst
  | cons l rest ih =>
    intro st hst hl
    rw [List.foldl_cons]
    exact ih _ (good_processLine hdr hst (hl l (List.mem_cons_self l rest)))
      (fun x hx => hl x (List.mem_cons_of_mem l hx))

/-- Every output segment of one reflow run is free of line breaks. -/
lemma reflowSegments_NoCRLF (text : List Char) (hdr : Bool) :
    ∀ seg ∈ reflowSegments text hdr, NoCRLF seg := by
  intro seg hseg
  have hlines : ∀ l ∈ splitChar '\n' (normalizeNewlines text), NoCRLF l := by
    intro l hl c hc
    have h1 := splitChar_mem '\n' (normalizeNewlines text) l hl c hc
    exact ⟨h1.2, normalizeNewlines_no_cr text c h1.1⟩
  have hgood := good_foldl hdr (splitChar '\n' (normalizeNewlines text))
    ReflowState.init good_init hlines
  simp only [reflowSegments] at hseg
  rcases List.mem_append.mp hseg with h | h
  · exact hgood.1 seg h
  · by_cases hb : ((splitChar '\n' (normalizeNewlines text)).foldl
        (processLine hdr) ReflowState.init).buffer.isEmpty
    · rw [if_pos hb] at h
      cases h
    · rw [if_neg hb] at h
      rw [List.mem_singleton.mp h]
      exact hgood.2

/-- The number of output segments is the final state's segment weight. -/
lemma reflowSegments_length (text : List Char) (hdr : Bool) :
    (reflowSegments text hdr).length =
      segWeight ((splitChar '\n' (normalizeNewlines text)).foldl
        (processLine hdr) ReflowState.init) := by
  simp only [reflowSegments, segWeight, List.length_append]
  split_ifs <;> simp

/-- The number of output segments is at most the number of
non-whitespace input lines. -/
lemma reflowSegments_le_countP (text : List Char) (hdr : Bool) :
    (reflowSegments text hdr).length ≤
      (splitChar '\n' (normalizeNewlines text)).countP notWsLine := by
  rw [reflowSegments_length]
  have h := segWeight_foldl hdr (splitChar '\n' (normalizeNewlines text))
    ReflowState.init
  have hinit : segWeight ReflowState.init = 0 := rfl
  omega

/-- C7 (amended).  The spec claims re-reflowing the engine's output is a
no-op; in fact a second pass can merge segments, as the recorded
counterexample shows.  What does hold is that a
second pass never splits: reflowing the non-compact output again (with
any header flag) produces at most as many segments as the first pass. -/
theorem reflow_second_pass_no_split (t : List Char) (hdr hdr2 : Bool)
    (hnw : t.all isWhitespace = false) :
    (reflowSegments (reflow_cjk_paragraphs t hdr false) hdr2).length ≤
      (reflowSegments t hdr).length := by
  rw [reflow_cjk_paragraphs, if_neg (by rw [hnw]; simp),
      if_neg (by simp : ¬((false : Bool) = true))]
  cases hsegs : reflowSegments t hdr with
  | nil =>
    have h0 : List.intercalate (['\n', '\n']) ([] : List (List Char)) = [] := rfl
    rw [h0]
    have h1 : ∀ b : Bool, (reflowSegments [] b).length = 0 := by decide
    rw [h1 hdr2]
    exact Nat.zero_le _
  | cons s rest =>
    have hnocrlf : ∀ x ∈ reflowSegments t hdr, NoCRLF x :=
      reflowSegments_NoCRLF t hdr
    have hne : reflowSegments t hdr ≠ [] := by rw [hsegs]; simp
    have hnolf : ∀ x ∈ reflowSegments t hdr, '\n' ∉ x :=
      fun x hx hmem => (hnocrlf x hx '\n' hmem).1 rfl
    have hnocr : ∀ c ∈ List.intercalate ['\n', '\n'] (reflowSegments t hdr),
        c ≠ '\r' := by
      intro c hc
      rcases mem_intercalate ['\n', '\n'] _ hc with h | ⟨x, hx, hcx⟩
      · rcases List.mem_cons.mp h with rfl | h'
        · decide
        · rw [List.mem_singleton.mp h']; decide
      · exact (hnocrlf x hx c hcx).2
    rw [← hsegs]
    have hstep :=
      reflowSegments_le_countP (List.intercalate ['\n', '\n']
        (reflowSegments t hdr)) hdr2
    rw [normalizeNewlines_id _ hnocr,
        splitChar_intercalate '\n' _ hne hnolf] at hstep
    have hcnt := countP_interleaveBlanks notWsLine rfl (reflowSegments t hdr)
    omega

/-- C7 witness: a concrete two-segment text on which the second pass does
not increase the segment count. -/
theorem reflow_second_pass_no_split_witness :
    ("你好。\n天黑了".toList.all isWhitespace = false) ∧
      (reflowSegments
          (reflow_cjk_paragraphs "你好。\n天黑了".toList false false)
          false).length ≤
        (reflowSegments "你好。\n天黑了".toList false).length :=
  ⟨by decide, reflow_second_pass_no_split "你好。\n天黑了".toList false false
    (by decide)⟩

end OpenccPyo3
